import Mathlib

/-!
Verification development for the Verisite website auditor
(backend crawl engine, URL normalizer, robots ruleset, issue detection).

URLs are modelled as lists of characters (`Str`).  The WHATWG `URL`
collaborator used by `urlNormalizer.js` and `customRobotsParser.js` is an
external platform library; it is embedded here as `parseURL`/`serializeParts`,
a component-level parser for absolute hierarchical URLs
(`scheme://host[:port]path[?search][#fragment]`) that fails to `none` on
input it cannot handle, mirroring the thrown `TypeError` of `new URL(...)`.

The crawl engine is the current `crawler.js` (the "dumb crawler" described by
`backend/CRAWL.dev.md`: raw URLs, exact-string dedup, no loop detection while
following redirects, `fetch_error` population on failure).  The transport
(`httpClient.js`), HTML parser and robots ruleset are collaborators passed in
as functions of a `CrawlEnv`.
-/

namespace Verisite

abbrev Str := List Char

/-- `s.toLowerCase()` of JavaScript, restricted to basic latin letters
(the behaviour of `Char.toLower`). -/
def toLowerStr (s : Str) : Str := s.map Char.toLower

/-- `spanNot stops cs` splits `cs` at the first character contained in
`stops` (everything before it, and the rest beginning with that stop
character). -/
def spanNot (stops : List Char) : Str → Str × Str
  | [] => ([], [])
  | c :: rest =>
    if c ∈ stops then ([], c :: rest)
    else
      let p := spanNot stops rest
      (c :: p.1, p.2)

/-- Component view of an absolute hierarchical URL.  `port` and `search` keep
the raw character data (without the leading `:` and `?`); `frag` is the
fragment without `#`. -/
structure URLParts where
  scheme : Str
  host : Str
  port : Option Str
  path : Str
  search : Option Str
  frag : Option Str
  deriving Repr, DecidableEq

def isSchemeChar (c : Char) : Bool :=
  c.isAlpha || c.isDigit || c = '+' || c = '-' || c = '.'

def validScheme : Str → Bool
  | [] => false
  | c :: rest => c.isAlpha && rest.all isSchemeChar

def isHostChar (c : Char) : Bool :=
  !(c = ':' || c = '/' || c = '?' || c = '#' || c = '@')

def validHost (h : Str) : Bool :=
  !h.isEmpty && h.all isHostChar

/-- Splits an authority component into host and optional port; rejects hosts
that the `URL` collaborator would reject (empty, or with a second `:`), and
non-numeric ports.  The rest after `spanNot [':']` can only start with `:`. -/
def parseHostPort (auth : Str) : Option (Str × Option Str) :=
  match spanNot [':'] auth with
  | (host, []) => if validHost host then some (host, none) else none
  | (host, _ :: portCs) =>
    if validHost host && !portCs.isEmpty && portCs.all Char.isDigit then
      some (host, some portCs)
    else none

/-- The external `new URL(...)` collaborator, restricted to absolute
hierarchical URLs; returns `none` where the collaborator throws. -/
def parseURL (cs : Str) : Option URLParts :=
  let sp := spanNot [':'] cs
  match sp.2 with
  | c1 :: c2 :: c3 :: rest =>
    if c1 = ':' ∧ c2 = '/' ∧ c3 = '/' ∧ validScheme sp.1 = true then
      let ap := spanNot ['/', '?', '#'] rest
      match parseHostPort ap.1 with
      | none => none
      | some (host, port) =>
        let pp := spanNot ['?', '#'] ap.2
        let path := if pp.1.isEmpty then ['/'] else pp.1
        match pp.2 with
        | [] => some ⟨sp.1, host, port, path, none, none⟩
        | c :: qf =>
          if c = '?' then
            let qp := spanNot ['#'] qf
            match qp.2 with
            | [] => some ⟨sp.1, host, port, path, some qp.1, none⟩
            | _ :: f => some ⟨sp.1, host, port, path, some qp.1, some f⟩
          else if c = '#' then some ⟨sp.1, host, port, path, none, some qf⟩
          else none
    else none
  | _ => none

def portSerialization (po : Option Str) : Str :=
  match po with | none => [] | some d => ':' :: d

def searchSerialization (se : Option Str) : Str :=
  match se with | none => [] | some q => '?' :: q

def fragSerialization (fr : Option Str) : Str :=
  match fr with | none => [] | some f => '#' :: f

/-- `url.href`: the serialization the collaborator reports back. -/
def serializeParts (p : URLParts) : Str :=
  p.scheme ++ [':', '/', '/'] ++ p.host
    ++ portSerialization p.port
    ++ p.path
    ++ searchSerialization p.search
    ++ fragSerialization p.frag

/-- Well-formedness facts that hold of every successfully parsed URL and are
preserved by normalization; exactly what is needed to re-parse a
serialization. -/
structure WF (p : URLParts) : Prop where
  scheme_ok : validScheme p.scheme = true
  host_ok : validHost p.host = true
  port_ok : ∀ d, p.port = some d → d ≠ [] ∧ ∀ c ∈ d, c.isDigit = true
  path_head : p.path.head? = some '/'
  path_ok : ∀ c ∈ p.path, c ≠ '?' ∧ c ≠ '#'
  search_ok : ∀ q, p.search = some q → ∀ c ∈ q, c ≠ '#'

end Verisite

namespace Verisite.URLNormalizer

/-- `URLNormalizer.normalize` of `urlNormalizer.js`, component steps:
lowercase protocol and hostname, clear the hash, drop the default port for
`http`/`https`, and strip one trailing slash from a non-root pathname. -/
def normalizeParts (p : URLParts) : URLParts :=
  let scheme := toLowerStr p.scheme
  let host := toLowerStr p.host
  let port :=
    if (scheme = ("http".data) ∧ p.port = some ("80".data)) ∨
       (scheme = ("https".data) ∧ p.port = some ("443".data)) then none
    else p.port
  let path :=
    if p.path ≠ ['/'] ∧ p.path.getLast? = some '/' then p.path.dropLast else p.path
  { scheme := scheme, host := host, port := port, path := path,
    search := p.search, frag := none }

def normalizeChars (cs : Str) : Option Str :=
  (parseURL cs).map (fun p => serializeParts (normalizeParts p))

/-- `URLNormalizer.normalize(urlString)` — `null` (here `none`) when the URL
collaborator throws. -/
def normalize (u : String) : Option String :=
  (normalizeChars u.data).map (fun cs => String.mk cs)

end Verisite.URLNormalizer

namespace Verisite.CustomRobotsParser

/-- The per-agent rule lists recorded by `parseRobotsTxt` for the wildcard
agent (`customRobotsParser.js`). -/
structure RobotsRules where
  allow : List Str
  disallow : List Str

/-- `matchesRule(path, rule)`: the literal rule `/` matches everything; a
rule ending in `*` matches by prefix of the part before the `*`; otherwise
plain prefix match. -/
def matchesRule (path rule : Str) : Bool :=
  if rule = ['/'] then true
  else if rule.getLast? = some '*' then rule.dropLast.isPrefixOf path
  else rule.isPrefixOf path

/-- The early-return loop over a rule list in `isAllowed`. -/
def firstRuleMatch (path : Str) : List Str → Bool
  | [] => false
  | r :: rs => if matchesRule path r then true else firstRuleMatch path rs

/-- `path = pathname + search` as computed from a parsed URL. -/
def robotsPath (u : URLParts) : Str :=
  u.path ++ (match u.search with | none => [] | some q => '?' :: q)

/-- `CustomRobotsParser.isAllowed(url)`: an `Allow` match returns true
immediately, then a `Disallow` match returns false, otherwise true; an
unparseable URL (the collaborator throws) is allowed. -/
def isAllowed (rules : RobotsRules) (url : String) : Bool :=
  match parseURL url.data with
  | none => true
  | some u =>
    let path := robotsPath u
    if firstRuleMatch path rules.allow then true
    else if firstRuleMatch path rules.disallow then false
    else true

/-- The accumulator loop of `getDisallowRule`: keep the first seen rule of
maximal length (a later rule replaces only when strictly longer). -/
def longestMatchLoop (path : Str) : List Str → Option Str → Option Str
  | [], acc => acc
  | r :: rs, acc =>
    if matchesRule path r then
      match acc with
      | none => longestMatchLoop path rs (some r)
      | some m =>
        if m.length < r.length then longestMatchLoop path rs (some r)
        else longestMatchLoop path rs (some m)
    else longestMatchLoop path rs acc

/-- `CustomRobotsParser.getDisallowRule(url)`: the longest matching disallow
rule, `null` when none matches or the URL cannot be parsed. -/
def getDisallowRule (rules : RobotsRules) (url : String) : Option Str :=
  match parseURL url.data with
  | none => none
  | some u => longestMatchLoop (robotsPath u) rules.disallow none

end Verisite.CustomRobotsParser

namespace Verisite

/-! ### Page records and crawl-engine state (`pageData.js`, `crawler.js`) -/

inductive ResourceType where
  | PAGE
  | RESOURCE
  deriving Repr, DecidableEq

inductive FetchError where
  | network_error
  | max_redirects_exceeded
  | exception_during_fetch
  | unknown_fetch_failure
  deriving Repr, DecidableEq

/-- One parsed `<a>` link as returned by the HTML-parser collaborator. -/
structure ParsedLink where
  normalized : Str
  isInternal : Bool
  deriving Repr, DecidableEq

/-- The result of the HTML-parser collaborator (`htmlParser.js`), restricted
to the fields the crawl engine reads. -/
structure ParsedDoc where
  title : Option Str
  h1s : List Str
  metaRobots : Option Str
  metaDescription : Option Str
  links : List ParsedLink
  deriving Repr, DecidableEq

/-- A transport response (`HTTPClient.fetch`): status, headers, and the body
(`none` when `response.text()` would throw).  The transport does not follow
redirects itself, so the URL a response belongs to is the requested URL; the
crawl engine threads it alongside. -/
structure Response where
  status : Nat
  headers : List (Str × Str)
  body : Option Str
  deriving Repr, DecidableEq

/-- Case-insensitive `response.headers.get(key)`; `key` is given lowercase. -/
def headerGet (headers : List (Str × Str)) (key : Str) : Option Str :=
  (headers.find? (fun kv => toLowerStr kv.1 == key)).map (fun kv => kv.2)

/-- `response.headers.forEach` detecting `x-robots-tag` (last match wins). -/
def xRobotsOf (headers : List (Str × Str)) (init : Option Str) : Option Str :=
  headers.foldl
    (fun acc kv => if toLowerStr kv.1 == ("x-robots-tag".data) then some (toLowerStr kv.2) else acc)
    init

/-- A Page Record (`PageData` of `pageData.js`), restricted to the fields the
claims and checks read. -/
structure PageData where
  url : Str
  normalized_url : Str
  resource_type : Option ResourceType
  http_status : Option Nat
  final_url : Option Str
  redirect_chain : List Str
  fetch_error : Option FetchError
  headers : List (Str × Str)
  x_robots_tag : Option Str
  title : Option Str
  h1s : List Str
  meta_robots : Option Str
  meta_description : Option Str
  blocked_by_robots : Bool
  blocked_by_robots_rule : Option Str
  internal_outgoing_links : List Str
  external_outgoing_links : List Str
  incoming_internal_link_count : Nat
  deriving Repr, DecidableEq

/-- `new PageData(url, normalizedURL)`. -/
def PageData.init (url normalizedURL : Str) : PageData where
  url := url
  normalized_url := normalizedURL
  resource_type := none
  http_status := none
  final_url := none
  redirect_chain := []
  fetch_error := none
  headers := []
  x_robots_tag := none
  title := none
  h1s := []
  meta_robots := none
  meta_description := none
  blocked_by_robots := false
  blocked_by_robots_rule := none
  internal_outgoing_links := []
  external_outgoing_links := []
  incoming_internal_link_count := 0

def PageData.isPage (pd : PageData) : Bool :=
  pd.resource_type = some ResourceType.PAGE

/-- The collaborators and options a `Crawler` instance is built with.
`net u = none` models a thrown network error/timeout for the request to `u`;
`resolve loc base` is `new URL(location, url).href` (`none` when it throws);
`parse html baseUrl` is the HTML parser; `robotsAllowed`/`robotsRule` are the
robots ruleset queries. -/
structure CrawlEnv where
  net : Str → Option Response
  resolve : Str → Str → Option Str
  parse : Str → Str → ParsedDoc
  robotsAllowed : Str → Bool
  robotsRule : Str → Option Str
  maxRedirects : Nat
  maxPages : Nat

/-- Crawl-engine state: FIFO queue of raw URL strings, exact-string visited
set, insertion-ordered page store and link graph, and the budget counter.
`fetchLog` is trace instrumentation only (the URLs passed to `fetchPage`, in
order); no crawl code reads it. -/
structure CrawlState where
  queue : List Str
  visited : List Str
  pages : List (Str × PageData)
  linkGraph : List (Str × List Str)
  pageCount : Nat
  fetchLog : List Str
  deriving Repr, DecidableEq

def initState (seedURL : Str) : CrawlState where
  queue := [seedURL]
  visited := []
  pages := []
  linkGraph := []
  pageCount := 0
  fetchLog := []

/-- `recordLink(sourceURL, targetURL)`: adjacency map of sets, insertion
ordered (JS `Map`/`Set`). -/
def recordLink (g : List (Str × List Str)) (s t : Str) : List (Str × List Str) :=
  match g with
  | [] => [(s, [t])]
  | (k, ts) :: rest =>
    if k = s then (k, if t ∈ ts then ts else ts ++ [t]) :: rest
    else (k, ts) :: recordLink rest s t

/-- `Crawler.fetchWithRedirects(url, pageData, redirectCount)`, implemented
on the explicit termination measure `maxRedirects + 1 - redirectCount` (the
recursion increments `redirectCount` and aborts strictly beyond
`maxRedirects`).  Returns the final response paired with the URL it was
requested from, or `none` on abort, together with the updated record. -/
def fetchWithRedirectsAux (net : Str → Option Response) (resolve : Str → Str → Option Str) :
    Nat → Str → PageData → Nat → Option (Response × Str) × PageData
  | 0, _, pd, _ =>
    (none, { pd with fetch_error := some FetchError.max_redirects_exceeded })
  | gas + 1, url, pd, redirectCount =>
    match net url with
    | none => (none, { pd with fetch_error := some FetchError.network_error })
    | some resp =>
      if 300 ≤ resp.status ∧ resp.status < 400 then
        match headerGet resp.headers ("location".data) with
        | none => (some (resp, url), pd)
        | some loc =>
          match resolve loc url with
          | none => (some (resp, url), pd)
          | some redirectURL =>
            fetchWithRedirectsAux net resolve gas redirectURL
              { pd with redirect_chain := pd.redirect_chain ++ [url] }
              (redirectCount + 1)
      else (some (resp, url), pd)

def fetchWithRedirects (net : Str → Option Response) (resolve : Str → Str → Option Str)
    (maxRedirects : Nat) (url : Str) (pd : PageData) (redirectCount : Nat) :
    Option (Response × Str) × PageData :=
  fetchWithRedirectsAux net resolve (maxRedirects + 1 - redirectCount) url pd redirectCount

/-- One iteration of the per-link loop at the end of `Crawler.fetchPage`:
push to the outgoing lists, record the graph edge for an internal link, and
enqueue the target if it is neither visited nor queued. -/
def processLink (url : Str) (acc : PageData × CrawlState) (link : ParsedLink) :
    PageData × CrawlState :=
  let pd := acc.1
  let st := acc.2
  if link.isInternal then
    let pd := { pd with
      internal_outgoing_links := pd.internal_outgoing_links ++ [link.normalized] }
    let st := { st with linkGraph := recordLink st.linkGraph url link.normalized }
    if link.normalized ∈ st.visited ∨ link.normalized ∈ st.queue then (pd, st)
    else (pd, { st with queue := st.queue ++ [link.normalized] })
  else
    ({ pd with
      external_outgoing_links := pd.external_outgoing_links ++ [link.normalized] }, st)

/-- The per-link loop (`for (const link of parsed.links)`). -/
def processLinks (url : Str) (links : List ParsedLink)
    (acc : PageData × CrawlState) : PageData × CrawlState :=
  links.foldl (processLink url) acc

/-- `Crawler.fetchPage(url, pageData)` of the current crawler: classify a
failed fetch as `PAGE` with a `fetch_error`, otherwise record status, final
URL and headers, classify by `Content-Type`, and for HTML parse the body and
process links.  A thrown `response.text()` (body `none`) is the
`exception_during_fetch` catch path. -/
def fetchPage (env : CrawlEnv) (url : Str) (pd : PageData) (st : CrawlState) :
    PageData × CrawlState :=
  match fetchWithRedirects env.net env.resolve env.maxRedirects url pd 0 with
  | (none, pd) =>
    ({ pd with
        resource_type := some ResourceType.PAGE,
        fetch_error :=
          match pd.fetch_error with
          | none => some FetchError.unknown_fetch_failure
          | some e => some e }, st)
  | (some (resp, respUrl), pd) =>
    let pd := { pd with
      http_status := some resp.status,
      final_url := some respUrl,
      headers := resp.headers,
      x_robots_tag := xRobotsOf resp.headers pd.x_robots_tag }
    let ct := (headerGet resp.headers ("content-type".data)).getD []
    if ("text/html".data).isPrefixOf (toLowerStr ct) then
      let pd := { pd with resource_type := some ResourceType.PAGE }
      match resp.body with
      | none =>
        ({ pd with
            http_status := some 0,
            resource_type := some ResourceType.PAGE,
            fetch_error := some FetchError.exception_during_fetch }, st)
      | some html =>
        let parsed := env.parse html respUrl
        let pd := { pd with
          title := parsed.title,
          h1s := parsed.h1s,
          meta_robots := parsed.metaRobots,
          meta_description := parsed.metaDescription }
        processLinks url parsed.links (pd, st)
    else
      ({ pd with resource_type := some ResourceType.RESOURCE }, st)

/-- One iteration of the `while` loop in `Crawler.crawl` (the queue is known
non-empty when called from the loop; an empty queue is a no-op). -/
def crawlStep (env : CrawlEnv) (st : CrawlState) : CrawlState :=
  match st.queue with
  | [] => st
  | url :: rest =>
    let st := { st with queue := rest }
    if url ∈ st.visited then st
    else
      let st := { st with visited := st.visited ++ [url] }
      let pd := PageData.init url url
      if env.robotsAllowed url = false then
        let pd := { pd with
          blocked_by_robots := true,
          blocked_by_robots_rule := env.robotsRule url,
          resource_type := some ResourceType.PAGE }
        { st with pages := st.pages ++ [(url, pd)], pageCount := st.pageCount + 1 }
      else
        let st := { st with fetchLog := st.fetchLog ++ [url] }
        let r := fetchPage env url pd st
        let st := { r.2 with pages := r.2.pages ++ [(url, r.1)] }
        if r.1.isPage then { st with pageCount := st.pageCount + 1 } else st

/-- The `while (queue.length > 0 && pageCount < maxPages)` loop, fuelled. -/
def crawlLoop (env : CrawlEnv) : Nat → CrawlState → CrawlState
  | 0, st => st
  | fuel + 1, st =>
    if st.queue ≠ [] ∧ st.pageCount < env.maxPages then
      crawlLoop env fuel (crawlStep env st)
    else st

/-- The post-traversal incoming-count accumulation: one bump per recorded
edge (`incomingCounts.set(target, (incomingCounts.get(target) || 0) + 1)`). -/
def bumpCounts (m : Str → Nat) (targets : List Str) : Str → Nat :=
  targets.foldl (fun m target => fun u => if u = target then m u + 1 else m u) m

def incomingCounts (g : List (Str × List Str)) : Str → Nat :=
  g.foldl (fun m e => bumpCounts m e.2) (fun _ => 0)

/-- `Crawler.buildIncomingLinkCounts()`: every `PAGE` record gets the edge
count for its key (0 if absent); non-`PAGE` records always get 0. -/
def buildIncomingLinkCounts (g : List (Str × List Str)) (pages : List (Str × PageData)) :
    List (Str × PageData) :=
  pages.map (fun kv =>
    (kv.1,
      if kv.2.isPage then
        { kv.2 with incoming_internal_link_count := incomingCounts g kv.1 }
      else { kv.2 with incoming_internal_link_count := 0 }))

structure CrawlResult where
  pages : List PageData
  linkGraph : List (Str × List Str)
  deriving Repr, DecidableEq

/-- `Crawler.crawl()` of the current crawler: raw seed, fuelled BFS loop,
then the incoming-count pass; the result lists the records in insertion
order. -/
def Crawler.crawl (env : CrawlEnv) (seedURL : Str) (fuel : Nat) : CrawlResult where
  pages := (buildIncomingLinkCounts (crawlLoop env fuel (initState seedURL)).linkGraph
    (crawlLoop env fuel (initState seedURL)).pages).map (fun kv => kv.2)
  linkGraph := (crawlLoop env fuel (initState seedURL)).linkGraph

end Verisite

namespace Verisite

/-! ### Issue detection (`issueDetector.js`) and the audit pipeline
(`auditor.js`, `sitemapFetcher.js`) -/

inductive IssueType where
  | REDIRECT_LOOP
  | SITEMAP_ORPHAN
  deriving Repr, DecidableEq

structure Issue where
  issue_type : IssueType
  url : Str
  deriving Repr, DecidableEq

/-- The scan inside `detectRedirectLoops`: walk the chain keeping a `seen`
set, stopping at the first repeat; returns the loop flag and the `seen` set
as left at the end of the walk. -/
def scanChain : List Str → List Str → Bool × List Str
  | seen, [] => (false, seen)
  | seen, u :: rest =>
    if u ∈ seen then (true, seen) else scanChain (seen ++ [u]) rest

/-- The per-page condition of `detectRedirectLoops`: a non-empty chain with a
repeated entry, or whose `final_url` is among the scanned entries. -/
def redirectLoopFlag (p : PageData) : Bool :=
  if p.redirect_chain.isEmpty then false
  else
    let sc := scanChain [] p.redirect_chain
    sc.1 || (match p.final_url with | none => false | some f => f ∈ sc.2)

/-- `IssueDetector.detectRedirectLoops()` over the page list. -/
def IssueDetector.detectRedirectLoops (pages : List PageData) : List Issue :=
  pages.filterMap (fun p =>
    if redirectLoopFlag p then some ⟨IssueType.REDIRECT_LOOP, p.url⟩ else none)

/-- Iteration order of a JS `Set` built from a list: first occurrences. -/
def dedupKeepFirst (l : List Str) : List Str :=
  l.foldl (fun acc u => if u ∈ acc then acc else acc ++ [u]) []

/-- `IssueDetector.detectSitemapOrphans()`: one issue per sitemap-set URL not
among the records' `normalized_url` keys. -/
def IssueDetector.detectSitemapOrphans (pages : List PageData) (sitemapURLs : List Str) :
    List Issue :=
  let crawledURLs := pages.map (fun p => p.normalized_url)
  (dedupKeepFirst sitemapURLs).filterMap (fun u =>
    if u ∈ crawledURLs then none else some ⟨IssueType.SITEMAP_ORPHAN, u⟩)

/-- `SitemapFetcher.fetchPage` (`sitemapFetcher.js`): like `Crawler.fetchPage`
but with no queueing and no link-graph recording; only the record is built. -/
def SitemapFetcher.fetchPage (env : CrawlEnv) (url : Str) (pd : PageData) : PageData :=
  match fetchWithRedirects env.net env.resolve env.maxRedirects url pd 0 with
  | (none, pd) =>
    { pd with
        resource_type := some ResourceType.PAGE,
        fetch_error :=
          match pd.fetch_error with
          | none => some FetchError.unknown_fetch_failure
          | some e => some e }
  | (some (resp, respUrl), pd) =>
    let pd := { pd with
      http_status := some resp.status,
      final_url := some respUrl,
      headers := resp.headers,
      x_robots_tag := xRobotsOf resp.headers pd.x_robots_tag }
    let ct := (headerGet resp.headers ("content-type".data)).getD []
    if ("text/html".data).isPrefixOf (toLowerStr ct) then
      let pd := { pd with resource_type := some ResourceType.PAGE }
      match resp.body with
      | none =>
        { pd with
            http_status := some 0,
            resource_type := some ResourceType.PAGE,
            fetch_error := some FetchError.exception_during_fetch }
      | some html =>
        let parsed := env.parse html respUrl
        let withLinks := parsed.links.foldl
          (fun pd link =>
            if link.isInternal then
              { pd with
                internal_outgoing_links := pd.internal_outgoing_links ++ [link.normalized] }
            else
              { pd with
                external_outgoing_links := pd.external_outgoing_links ++ [link.normalized] })
          { pd with
            title := parsed.title,
            h1s := parsed.h1s,
            meta_robots := parsed.metaRobots,
            meta_description := parsed.metaDescription }
        withLinks
    else
      { pd with resource_type := some ResourceType.RESOURCE }

/-- One URL of `SitemapFetcher.fetchSitemapOnlyPages`: robots gate first,
then the fetch; every path pushes a record built from `PageData(url, url)`. -/
def SitemapFetcher.fetchOne (env : CrawlEnv) (url : Str) : PageData :=
  let pd := PageData.init url url
  if env.robotsAllowed url = false then
    { pd with
      blocked_by_robots := true,
      blocked_by_robots_rule := env.robotsRule url,
      resource_type := some ResourceType.PAGE }
  else SitemapFetcher.fetchPage env url pd

/-- PHASE 3.5 of `Auditor.audit`: fetch the sitemap URLs the spider did not
visit and merge their records into the page list before issue detection. -/
def Auditor.phase35 (env : CrawlEnv) (crawlPages : List PageData) (sitemapURLs : List Str) :
    List PageData :=
  let spiderVisited := crawlPages.map (fun p => p.url)
  let sitemapOnly := sitemapURLs.filter (fun u => !(u ∈ spiderVisited))
  if sitemapOnly.isEmpty then crawlPages
  else crawlPages ++ sitemapOnly.map (fun u => SitemapFetcher.fetchOne env u)

/-- Number of records classified `PAGE` (the page-budget measure). -/
def countPAGE (pages : List PageData) : Nat :=
  (pages.filter (fun p => p.isPage)).length

def countPageEntries (pages : List (Str × PageData)) : Nat :=
  (pages.filter (fun kv => kv.2.isPage)).length

/-- The traversal invariant of `Crawler.crawl`: page-store keys and the
fetch log are duplicate-free and contained in `visited`, the budget counter
counts exactly the `PAGE` records, and every stored record keeps the key it
was created with (`new PageData(url, url)`). -/
def CrawlInv (st : CrawlState) : Prop :=
  (st.pages.map Prod.fst).Nodup ∧
  st.fetchLog.Nodup ∧
  (∀ k ∈ st.pages.map Prod.fst, k ∈ st.visited) ∧
  (∀ k ∈ st.fetchLog, k ∈ st.visited) ∧
  st.pageCount = countPageEntries st.pages ∧
  (∀ kv ∈ st.pages, kv.2.url = kv.1 ∧ kv.2.normalized_url = kv.1)

end Verisite

/-! ## Theorems -/

namespace Verisite

/-! ### Character and `spanNot` facts -/

theorem char_toNat_ofNat (n : Nat) (h : n < 55296) : (Char.ofNat n).toNat = n := by
  have hv : n.isValidChar := Or.inl h
  rw [Char.ofNat, dif_pos hv]
  simp [Char.ofNatAux, Char.toNat, UInt32.toNat]

theorem char_toLower_of_upper (c : Char) (h65 : 65 ≤ c.toNat) (h90 : c.toNat ≤ 90) :
    (Char.toLower c).toNat = c.toNat + 32 := by
  rw [Char.toLower]
  simp only [ge_iff_le]
  rw [if_pos ⟨h65, h90⟩]
  exact char_toNat_ofNat _ (by omega)

theorem char_toLower_of_not_upper (c : Char) (h : ¬ (65 ≤ c.toNat ∧ c.toNat ≤ 90)) :
    Char.toLower c = c := by
  rw [Char.toLower]
  simp only [ge_iff_le]
  rw [if_neg h]

theorem char_toLower_toLower (c : Char) : (Char.toLower c).toLower = c.toLower := by
  by_cases h : 65 ≤ c.toNat ∧ c.toNat ≤ 90
  · have h1 : (Char.toLower c).toNat = c.toNat + 32 := char_toLower_of_upper c h.1 h.2
    apply char_toLower_of_not_upper
    omega
  · have e := char_toLower_of_not_upper c h
    rw [e]
    exact e

theorem toLowerStr_toLowerStr (s : Str) : toLowerStr (toLowerStr s) = toLowerStr s := by
  simp only [toLowerStr, List.map_map]
  apply List.map_congr_left
  intro c _
  exact char_toLower_toLower c

/-- The possible shapes of `Char.toLower`: identity, or an upper-case latin
letter mapped into `[97,122]`. -/
theorem char_toLower_cases (c : Char) :
    Char.toLower c = c ∨
      (97 ≤ (Char.toLower c).toNat ∧ (Char.toLower c).toNat ≤ 122) := by
  by_cases h : 65 ≤ c.toNat ∧ c.toNat ≤ 90
  · right
    have := char_toLower_of_upper c h.1 h.2
    omega
  · left
    exact char_toLower_of_not_upper c h

theorem char_isLower_of_toNat (c : Char) (h1 : 97 ≤ c.toNat) (h2 : c.toNat ≤ 122) :
    c.isLower = true := by
  simp only [Char.isLower, Bool.and_eq_true, decide_eq_true_eq]
  exact ⟨h1, h2⟩

theorem char_isAlpha_toLower (c : Char) (h : c.isAlpha = true) :
    (Char.toLower c).isAlpha = true := by
  rcases char_toLower_cases c with he | ⟨h1, h2⟩
  · rw [he]; exact h
  · simp only [Char.isAlpha, Bool.or_eq_true]
    exact Or.inr (char_isLower_of_toNat _ h1 h2)

theorem isSchemeChar_toLower (c : Char) (h : isSchemeChar c = true) :
    isSchemeChar (Char.toLower c) = true := by
  rcases char_toLower_cases c with he | ⟨h1, h2⟩
  · rw [he]; exact h
  · have halpha : (Char.toLower c).isAlpha = true := by
      simp only [Char.isAlpha, Bool.or_eq_true]
      exact Or.inr (char_isLower_of_toNat _ h1 h2)
    simp [isSchemeChar, halpha]

theorem char_toNat_ne_ne {c d : Char} (h : c.toNat ≠ d.toNat) : c ≠ d := by
  intro he
  exact h (by rw [he])

theorem isHostChar_toLower (c : Char) (h : isHostChar c = true) :
    isHostChar (Char.toLower c) = true := by
  rcases char_toLower_cases c with he | ⟨h1, h2⟩
  · rw [he]; exact h
  · have colon : (':' : Char).toNat = 58 := by decide
    have slash : ('/' : Char).toNat = 47 := by decide
    have quest : ('?' : Char).toNat = 63 := by decide
    have hashc : ('#' : Char).toNat = 35 := by decide
    have atc : ('@' : Char).toNat = 64 := by decide
    simp only [isHostChar, Bool.or_eq_true, Bool.not_eq_true',
      Bool.or_eq_false_iff, decide_eq_false_iff_not]
    refine ⟨⟨⟨⟨?_, ?_⟩, ?_⟩, ?_⟩, ?_⟩ <;> (apply char_toNat_ne_ne; omega)

theorem spanNot_append (stops : List Char) (a b : Str)
    (ha : ∀ c ∈ a, c ∉ stops)
    (hb : b = [] ∨ ∃ c rest, b = c :: rest ∧ c ∈ stops) :
    spanNot stops (a ++ b) = (a, b) := by
  induction a with
  | nil =>
    rcases hb with h | ⟨c, rest, rfl, hc⟩
    · simp [h, spanNot]
    · simp [spanNot, hc]
  | cons c a ih =>
    have hc : c ∉ stops := ha c (by simp)
    simp only [List.cons_append, spanNot, if_neg hc]
    have h2 := ih (fun x hx => ha x (by simp [hx]))
    simp only [List.append_eq, h2]

theorem spanNot_spec (stops : List Char) (cs : Str) :
    cs = (spanNot stops cs).1 ++ (spanNot stops cs).2 ∧
    (∀ c ∈ (spanNot stops cs).1, c ∉ stops) ∧
    ((spanNot stops cs).2 = [] ∨
      ∃ c rest, (spanNot stops cs).2 = c :: rest ∧ c ∈ stops) := by
  induction cs with
  | nil => simp [spanNot]
  | cons c rest ih =>
    by_cases hc : c ∈ stops
    · simp only [spanNot, if_pos hc]
      exact ⟨rfl, by simp, Or.inr ⟨c, rest, rfl, hc⟩⟩
    · simp only [spanNot, if_neg hc]
      refine ⟨?_, ?_, ih.2.2⟩
      · simpa using ih.1
      · intro x hx
        rcases List.mem_cons.mp hx with rfl | hx
        · exact hc
        · exact ih.2.1 x hx

theorem validScheme_chars (s : Str) (h : validScheme s = true) :
    ∀ c ∈ s, isSchemeChar c = true := by
  cases s with
  | nil => simp [validScheme] at h
  | cons c rest =>
    simp only [validScheme, Bool.and_eq_true, List.all_eq_true] at h
    intro x hx
    rcases List.mem_cons.mp hx with rfl | hx
    · simp [isSchemeChar, h.1]
    · exact h.2 x hx

theorem isSchemeChar_excl (c : Char) (h : isSchemeChar c = true) :
    c ≠ ':' ∧ c ≠ '/' ∧ c ≠ '?' ∧ c ≠ '#' := by
  refine ⟨?_, ?_, ?_, ?_⟩ <;> (intro heq; subst heq; revert h; decide)

theorem isHostChar_excl (c : Char) (h : isHostChar c = true) :
    c ≠ ':' ∧ c ≠ '/' ∧ c ≠ '?' ∧ c ≠ '#' ∧ c ≠ '@' := by
  refine ⟨?_, ?_, ?_, ?_, ?_⟩ <;> (intro heq; subst heq; revert h; decide)

theorem isDigit_excl (c : Char) (h : c.isDigit = true) :
    c ≠ ':' ∧ c ≠ '/' ∧ c ≠ '?' ∧ c ≠ '#' := by
  refine ⟨?_, ?_, ?_, ?_⟩ <;> (intro heq; subst heq; revert h; decide)

theorem validHost_chars (h : Str) (hv : validHost h = true) :
    h ≠ [] ∧ ∀ c ∈ h, isHostChar c = true := by
  simp only [validHost, Bool.and_eq_true, Bool.not_eq_true', List.isEmpty_eq_false,
    List.all_eq_true] at hv
  exact hv

theorem validHost_toLower (h : Str) (hv : validHost h = true) :
    validHost (toLowerStr h) = true := by
  obtain ⟨hne, hall⟩ := validHost_chars h hv
  simp only [validHost, Bool.and_eq_true, Bool.not_eq_true', List.all_eq_true]
  constructor
  · simp only [toLowerStr, List.isEmpty_eq_false]
    cases h with
    | nil => exact absurd rfl hne
    | cons a l => simp
  · intro c hc
    simp only [toLowerStr, List.mem_map] at hc
    obtain ⟨a, ha, rfl⟩ := hc
    exact isHostChar_toLower a (hall a ha)

theorem validScheme_toLower (s : Str) (hv : validScheme s = true) :
    validScheme (toLowerStr s) = true := by
  cases s with
  | nil => simp [validScheme] at hv
  | cons c rest =>
    simp only [validScheme, Bool.and_eq_true, List.all_eq_true] at hv
    simp only [toLowerStr, List.map_cons, validScheme, Bool.and_eq_true, List.all_eq_true]
    constructor
    · exact char_isAlpha_toLower c hv.1
    · intro x hx
      simp only [List.mem_map] at hx
      obtain ⟨a, ha, rfl⟩ := hx
      exact isSchemeChar_toLower a (hv.2 a ha)

theorem parseHostPort_wf (auth host : Str) (port : Option Str)
    (h : parseHostPort auth = some (host, port)) :
    validHost host = true ∧ ∀ d, port = some d → d ≠ [] ∧ ∀ c ∈ d, c.isDigit = true := by
  unfold parseHostPort at h
  split at h
  · split at h
    · rename_i hv
      injection h with h
      injection h with h1 h2
      subst h1
      subst h2
      exact ⟨hv, by intro d hd; exact absurd hd (by simp)⟩
    · exact absurd h (by simp)
  · split at h
    · rename_i hv
      injection h with h
      injection h with h1 h2
      subst h1
      subst h2
      simp only [Bool.and_eq_true, Bool.not_eq_true', List.isEmpty_eq_false,
        List.all_eq_true] at hv
      refine ⟨hv.1.1, ?_⟩
      intro d hd
      injection hd with hd
      subst hd
      exact ⟨hv.1.2, hv.2⟩
    · exact absurd h (by simp)

theorem parseHostPort_roundtrip (host : Str) (port : Option Str)
    (hh : validHost host = true)
    (hp : ∀ d, port = some d → d ≠ [] ∧ ∀ c ∈ d, c.isDigit = true) :
    parseHostPort (host ++ portSerialization port) = some (host, port) := by
  have hchars : ∀ c ∈ host, c ∉ [':'] := by
    intro c hc
    have h2 := (validHost_chars host hh).2 c hc
    have := isHostChar_excl c h2
    simp [this.1]
  cases port with
  | none =>
    have h1 : spanNot [':'] (host ++ []) = (host, []) :=
      spanNot_append _ _ _ hchars (Or.inl rfl)
    simp only [portSerialization, parseHostPort, h1, hh, if_true]
  | some d =>
    obtain ⟨hd1, hd2⟩ := hp d rfl
    have h1 : spanNot [':'] (host ++ (':' :: d)) = (host, ':' :: d) :=
      spanNot_append _ _ _ hchars (Or.inr ⟨':', d, rfl, by simp⟩)
    simp only [portSerialization, parseHostPort, h1, hh]
    have he : d.isEmpty = false := by simpa [List.isEmpty_eq_false] using hd1
    simp only [he, List.all_eq_true]
    simp
    exact hd2

theorem parse_path_facts (rest : Str) :
    ((if (spanNot ['?', '#'] (spanNot ['/', '?', '#'] rest).2).1.isEmpty then ['/']
      else (spanNot ['?', '#'] (spanNot ['/', '?', '#'] rest).2).1).head? = some '/') ∧
    ∀ c ∈ (if (spanNot ['?', '#'] (spanNot ['/', '?', '#'] rest).2).1.isEmpty then ['/']
      else (spanNot ['?', '#'] (spanNot ['/', '?', '#'] rest).2).1), c ≠ '?' ∧ c ≠ '#' := by
  set ap := spanNot ['/', '?', '#'] rest with hap
  set pp := spanNot ['?', '#'] ap.2 with hpp
  by_cases he : pp.1.isEmpty
  · rw [if_pos he]
    refine ⟨rfl, ?_⟩
    intro c hc
    rw [List.mem_singleton] at hc
    subst hc
    exact ⟨by decide, by decide⟩
  · rw [if_neg he]
    have hspec2 := spanNot_spec ['?', '#'] ap.2
    have hspec1 := spanNot_spec ['/', '?', '#'] rest
    rw [← hpp] at hspec2
    rw [← hap] at hspec1
    constructor
    · cases hc : pp.1 with
      | nil => rw [hc] at he; simp at he
      | cons x t =>
        have h1 : ap.2 = x :: (t ++ pp.2) := by
          have := hspec2.1
          rw [hc] at this
          simpa using this
        have hxn : x ∉ (['?', '#'] : List Char) := hspec2.2.1 x (by rw [hc]; simp)
        have hxin : x ∈ (['/', '?', '#'] : List Char) := by
          rcases hspec1.2.2 with hnil | ⟨c, r2, heq, hcin⟩
          · rw [hnil] at h1; simp at h1
          · rw [heq] at h1
            have : c = x := (List.cons.injEq c r2 x (t ++ pp.2)).mp h1 |>.1
            rw [← this]
            exact hcin
        have hx : x = '/' := by
          rcases List.mem_cons.mp hxin with h | h2
          · exact h
          · exact absurd h2 hxn
        simp [hx]
    · intro c hcmem
      have hnm := hspec2.2.1 c hcmem
      constructor <;> intro heq <;> subst heq <;> exact hnm (by simp)

theorem parseURL_wf (cs : Str) (p : URLParts) (h : parseURL cs = some p) : WF p := by
  simp only [parseURL] at h
  split at h
  · rename_i c1 c2 c3 rest heq
    split at h
    · rename_i hcond
      obtain ⟨hc1, hc2, hc3, hvs⟩ := hcond
      split at h
      · exact absurd h (by simp)
      · rename_i host port heq2
        have hhp := parseHostPort_wf _ _ _ heq2
        have hpath := parse_path_facts rest
        split at h
        · injection h with h
          subst h
          exact ⟨hvs, hhp.1, hhp.2, hpath.1, hpath.2, by intro q hq; exact absurd hq (by simp)⟩
        · rename_i c qf heq3
          split at h
          · rename_i hcq
            have hqspec := spanNot_spec ['#'] qf
            split at h
            · injection h with h
              subst h
              refine ⟨hvs, hhp.1, hhp.2, hpath.1, hpath.2, ?_⟩
              intro q hq
              injection hq with hq
              subst hq
              intro c hcm heqc
              subst heqc
              exact hqspec.2.1 _ hcm (by simp)
            · injection h with h
              subst h
              refine ⟨hvs, hhp.1, hhp.2, hpath.1, hpath.2, ?_⟩
              intro q hq
              injection hq with hq
              subst hq
              intro c hcm heqc
              subst heqc
              exact hqspec.2.1 _ hcm (by simp)
          · split at h
            · injection h with h
              subst h
              exact ⟨hvs, hhp.1, hhp.2, hpath.1, hpath.2, by intro q hq; exact absurd hq (by simp)⟩
            · exact absurd h (by simp)
    · exact absurd h (by simp)
  · exact absurd h (by simp)

theorem parse_serialize (p : URLParts) (hw : WF p) (hf : p.frag = none) :
    parseURL (serializeParts p) = some p := by
  obtain ⟨sch, hst, prt, pth, sea, frg⟩ := p
  obtain ⟨hs, hh, hp, hph, hpa, hq⟩ := hw
  simp only at hs hh hp hph hpa hq
  simp only at hf
  subst hf
  have hschars : ∀ c ∈ sch, c ∉ ([':'] : List Char) := by
    intro c hc
    have := isSchemeChar_excl c (validScheme_chars _ hs c hc)
    simp [this.1]
  obtain ⟨pt, hpt⟩ : ∃ t, pth = '/' :: t := by
    cases hc : pth with
    | nil => rw [hc] at hph; simp at hph
    | cons x t =>
      rw [hc] at hph
      simp only [List.head?_cons, Option.some.injEq] at hph
      exact ⟨t, by rw [hph]⟩
  have hhostchars := (validHost_chars _ hh).2
  have hpathchars : ∀ c ∈ pth, c ∉ (['?', '#'] : List Char) := by
    intro c hc
    have := hpa c hc
    simp [this.1, this.2]
  have hPortFacts : ∀ (po : Option Str), (∀ d, po = some d → d ≠ [] ∧ ∀ c ∈ d, c.isDigit = true) →
      ∃ pp : Str, portSerialization po = pp ∧
        ∀ c ∈ pp, c ∉ (['/', '?', '#'] : List Char) := by
    intro po hpo
    cases po with
    | none => exact ⟨[], rfl, by simp⟩
    | some d =>
      refine ⟨':' :: d, rfl, ?_⟩
      intro c hc
      rcases List.mem_cons.mp hc with rfl | hcd
      · decide
      · have := isDigit_excl c ((hpo d rfl).2 c hcd)
        simp [this.2.1, this.2.2.1, this.2.2.2]
  obtain ⟨portPart, hPortEq, hPortChars⟩ := hPortFacts prt hp
  have hSearchFacts : ∀ (se : Option Str),
      ∃ sp : Str, searchSerialization se = sp ∧
        (sp = [] ∨ ∃ c r, sp = c :: r ∧ c ∈ (['?', '#'] : List Char)) := by
    intro se
    cases se with
    | none => exact ⟨[], rfl, Or.inl rfl⟩
    | some q => exact ⟨'?' :: q, rfl, Or.inr ⟨'?', q, rfl, by simp⟩⟩
  obtain ⟨searchPart, hSearchEq, hSearchHead⟩ := hSearchFacts sea
  have hser : serializeParts ⟨sch, hst, prt, pth, sea, none⟩ =
      sch ++ (':' :: '/' :: '/' :: ((hst ++ portPart) ++ (pth ++ searchPart))) := by
    simp only [serializeParts, hPortEq, hSearchEq, fragSerialization]
    simp [List.append_assoc]
  rw [hser]
  have h1 : spanNot [':'] (sch ++ (':' :: '/' :: '/' :: ((hst ++ portPart) ++ (pth ++ searchPart)))) =
      (sch, ':' :: '/' :: '/' :: ((hst ++ portPart) ++ (pth ++ searchPart))) :=
    spanNot_append _ _ _ hschars (Or.inr ⟨':', _, rfl, by simp⟩)
  simp only [parseURL, h1]
  rw [if_pos ⟨trivial, trivial, trivial, hs⟩]
  have h2 : spanNot ['/', '?', '#'] ((hst ++ portPart) ++ (pth ++ searchPart)) =
      (hst ++ portPart, pth ++ searchPart) := by
    apply spanNot_append
    · intro c hc
      rcases List.mem_append.mp hc with hch | hcp
      · have := isHostChar_excl c (hhostchars c hch)
        simp [this.2.1, this.2.2.1, this.2.2.2.1]
      · exact hPortChars c hcp
    · exact Or.inr ⟨'/', pt ++ searchPart, by rw [hpt]; simp, by simp⟩
  simp only [h2]
  have h3 : parseHostPort (hst ++ portPart) = some (hst, prt) := by
    have := parseHostPort_roundtrip hst prt hh hp
    rw [hPortEq] at this
    exact this
  simp only [h3]
  have h4 : spanNot ['?', '#'] (pth ++ searchPart) = (pth, searchPart) :=
    spanNot_append _ _ _ hpathchars hSearchHead
  simp only [h4]
  have h5 : pth.isEmpty = false := by rw [hpt]; rfl
  simp only [h5, Bool.false_eq_true, if_false]
  cases hse : sea with
  | none =>
    rw [hse] at hSearchEq
    simp only [searchSerialization] at hSearchEq
    subst hSearchEq
    rfl
  | some q =>
    rw [hse] at hSearchEq
    simp only [searchSerialization] at hSearchEq
    subst hSearchEq
    have hqchars : ∀ c ∈ q, c ∉ (['#'] : List Char) := by
      intro c hc
      have := hq q hse c hc
      simp [this]
    have h6 : spanNot ['#'] q = (q, []) := by
      have := spanNot_append ['#'] q [] hqchars (Or.inl rfl)
      rwa [List.append_nil] at this
    simp only [reduceIte, h6]

theorem normalizeParts_wf (p : URLParts) (hw : WF p) :
    WF (URLNormalizer.normalizeParts p) := by
  obtain ⟨hs, hh, hp, hph, hpa, hq⟩ := hw
  refine ⟨?_, ?_, ?_, ?_, ?_, ?_⟩
  · simpa [URLNormalizer.normalizeParts] using validScheme_toLower _ hs
  · simpa [URLNormalizer.normalizeParts] using validHost_toLower _ hh
  · intro d hd
    simp only [URLNormalizer.normalizeParts] at hd
    split at hd
    · exact absurd hd (by simp)
    · exact hp d hd
  · simp only [URLNormalizer.normalizeParts]
    split
    · rename_i hcond
      obtain ⟨hne, hlast⟩ := hcond
      cases hc : p.path with
      | nil => rw [hc] at hph; simp at hph
      | cons x t =>
        rw [hc] at hph
        simp only [List.head?_cons, Option.some.injEq] at hph
        subst hph
        cases t with
        | nil => exact absurd hc hne
        | cons y s => simp [List.dropLast]
    · exact hph
  · simp only [URLNormalizer.normalizeParts]
    split
    · intro c hc
      exact hpa c ((List.dropLast_prefix _).subset hc)
    · exact hpa
  · intro q hqe
    simp only [URLNormalizer.normalizeParts] at hqe
    exact hq q hqe

theorem normalizeParts_idem (p : URLParts)
    (hpath : (URLNormalizer.normalizeParts p).path = ['/'] ∨
      (URLNormalizer.normalizeParts p).path.getLast? ≠ some '/') :
    URLNormalizer.normalizeParts (URLNormalizer.normalizeParts p) =
      URLNormalizer.normalizeParts p := by
  simp only [URLNormalizer.normalizeParts] at hpath ⊢
  simp only [URLParts.mk.injEq, toLowerStr_toLowerStr]
  refine ⟨trivial, trivial, ?_, ?_, trivial, trivial⟩
  · by_cases hC : (toLowerStr p.scheme = ("http".data) ∧ p.port = some ("80".data)) ∨
        (toLowerStr p.scheme = ("https".data) ∧ p.port = some ("443".data))
    · rw [if_pos hC]
      simp
    · rw [if_neg hC, if_neg hC]
  · rw [if_neg]
    rcases hpath with h | h
    · intro hcond
      exact hcond.1 h
    · intro hcond
      exact h hcond.2

/-- C6 counterexample: `canonicalize` is not idempotent.  On
`"http://x/a//"` it succeeds and yields `"http://x/a/"`, but canonicalizing
that output again strips one more trailing slash, yielding `"http://x/a"`:
the code removes exactly one trailing slash per application. -/
theorem normalize_not_idempotent_on_double_trailing_slash :
    URLNormalizer.normalize "http://x/a//" = some "http://x/a/" ∧
    URLNormalizer.normalize "http://x/a/" = some "http://x/a" ∧
    ("http://x/a/" : String) ≠ "http://x/a" := by
  exact ⟨by decide, by decide, by decide⟩

/-- C6 (amended): canonicalization is idempotent for every URL string on
which `canonicalize` succeeds, except those whose canonicalized pathname
still ends in a slash without being the root path (i.e. the raw pathname has
two or more trailing slashes): for those, each application removes one
trailing slash.  Under that exception, `canonicalize(canonicalize(u)) ==
canonicalize(u)`. -/
theorem normalize_idempotent_unless_double_trailing_slash (u r : String)
    (h : URLNormalizer.normalize u = some r)
    (hslash : (parseURL u.data).all
      (fun p => decide ((URLNormalizer.normalizeParts p).path = ['/']) ||
        !(decide ((URLNormalizer.normalizeParts p).path.getLast? = some '/'))) = true) :
    URLNormalizer.normalize r = some r := by
  unfold URLNormalizer.normalize URLNormalizer.normalizeChars at h
  cases hp : parseURL u.data with
  | none => rw [hp] at h; simp at h
  | some p =>
    rw [hp] at h
    simp only [Option.map_some'] at h
    injection h with h
    have hr : r = String.mk (serializeParts (URLNormalizer.normalizeParts p)) := h.symm
    rw [hp] at hslash
    have hslash2 : (URLNormalizer.normalizeParts p).path = ['/'] ∨
        (URLNormalizer.normalizeParts p).path.getLast? ≠ some '/' := by
      simp only [Option.all] at hslash
      simpa using hslash
    have hw := parseURL_wf _ _ hp
    have hwn := normalizeParts_wf _ hw
    have hps : parseURL (serializeParts (URLNormalizer.normalizeParts p)) =
        some (URLNormalizer.normalizeParts p) := parse_serialize _ hwn rfl
    unfold URLNormalizer.normalize URLNormalizer.normalizeChars
    have hrdata : r.data = serializeParts (URLNormalizer.normalizeParts p) := by
      rw [hr]
    rw [hrdata, hps]
    simp only [Option.map_some']
    rw [normalizeParts_idem p hslash2, hr]

/-- Witness for the amended C6 theorem at a concrete input. -/
theorem normalize_idempotent_witness :
    URLNormalizer.normalize "https://Ex.com:443/a/" = some "https://ex.com/a" ∧
    URLNormalizer.normalize "https://ex.com/a" = some "https://ex.com/a" := by
  constructor
  · decide
  · exact normalize_idempotent_unless_double_trailing_slash "https://Ex.com:443/a/"
      "https://ex.com/a" (by decide) (by decide)

namespace CustomRobotsParser

theorem firstRuleMatch_iff (path : Str) (rs : List Str) :
    firstRuleMatch path rs = true ↔ ∃ r ∈ rs, matchesRule path r = true := by
  induction rs with
  | nil => simp [firstRuleMatch]
  | cons r rs ih =>
    simp only [firstRuleMatch]
    by_cases h : matchesRule path r = true
    · rw [if_pos h]
      constructor
      · intro _
        exact ⟨r, by simp, h⟩
      · intro _
        rfl
    · rw [if_neg h, ih]
      constructor
      · rintro ⟨r2, hr2, hm⟩
        exact ⟨r2, List.mem_cons_of_mem _ hr2, hm⟩
      · rintro ⟨r2, hr2, hm⟩
        rcases List.mem_cons.mp hr2 with rfl | hr2
        · exact absurd hm h
        · exact ⟨r2, hr2, hm⟩

theorem longestMatchLoop_sound (path : Str) (rs : List Str) :
    ∀ (acc : Option Str), (∀ m, acc = some m → matchesRule path m = true) →
    ∀ r, longestMatchLoop path rs acc = some r →
      matchesRule path r = true ∧ (r ∈ rs ∨ acc = some r) ∧
      (∀ r2 ∈ rs, matchesRule path r2 = true → r2.length ≤ r.length) ∧
      (∀ m, acc = some m → m.length ≤ r.length) := by
  induction rs with
  | nil =>
    intro acc hacc r h
    simp only [longestMatchLoop] at h
    refine ⟨hacc r h, Or.inr h, by simp, ?_⟩
    intro m hm
    rw [hm] at h
    injection h with h
    rw [h]
  | cons r0 rs ih =>
    intro acc hacc r h
    simp only [longestMatchLoop] at h
    by_cases h0 : matchesRule path r0 = true
    · rw [if_pos h0] at h
      cases acc with
      | none =>
        simp only [] at h
        have hstep := ih (some r0)
          (fun m hm => by injection hm with hm; rw [← hm]; exact h0) r h
        obtain ⟨hm, hmem, hlen, hlacc⟩ := hstep
        refine ⟨hm, ?_, ?_, ?_⟩
        · left
          rcases hmem with hmem | hmem
          · exact List.mem_cons_of_mem _ hmem
          · injection hmem with hmem
            rw [hmem]
            simp
        · intro r2 hr2 hm2
          rcases List.mem_cons.mp hr2 with rfl | hr2
          · exact hlacc r2 rfl
          · exact hlen r2 hr2 hm2
        · intro m hm2
          exact absurd hm2 (by simp)
      | some m =>
        simp only [] at h
        by_cases hlt : m.length < r0.length
        · rw [if_pos hlt] at h
          have hstep := ih (some r0)
            (fun m2 hm2 => by injection hm2 with hm2; rw [← hm2]; exact h0) r h
          obtain ⟨hmr, hmem, hlen, hlacc⟩ := hstep
          refine ⟨hmr, ?_, ?_, ?_⟩
          · left
            rcases hmem with hmem | hmem
            · exact List.mem_cons_of_mem _ hmem
            · injection hmem with hmem
              rw [hmem]
              simp
          · intro r2 hr2 hm2
            rcases List.mem_cons.mp hr2 with rfl | hr2
            · exact hlacc r2 rfl
            · exact hlen r2 hr2 hm2
          · intro m2 hm2
            injection hm2 with hm2
            subst hm2
            have := hlacc r0 rfl
            omega
        · rw [if_neg hlt] at h
          have hstep := ih (some m)
            (fun m2 hm2 => by injection hm2 with hm2; rw [← hm2]; exact hacc m rfl) r h
          obtain ⟨hmr, hmem, hlen, hlacc⟩ := hstep
          refine ⟨hmr, ?_, ?_, ?_⟩
          · rcases hmem with hmem | hmem
            · exact Or.inl (List.mem_cons_of_mem _ hmem)
            · exact Or.inr hmem
          · intro r2 hr2 hm2
            rcases List.mem_cons.mp hr2 with rfl | hr2
            · have := hlacc m rfl
              omega
            · exact hlen r2 hr2 hm2
          · intro m2 hm2
            injection hm2 with hm2
            subst hm2
            exact hlacc m rfl
    · rw [if_neg h0] at h
      have hstep := ih acc hacc r h
      obtain ⟨hmr, hmem, hlen, hlacc⟩ := hstep
      refine ⟨hmr, ?_, ?_, hlacc⟩
      · rcases hmem with hmem | hmem
        · exact Or.inl (List.mem_cons_of_mem _ hmem)
        · exact Or.inr hmem
      · intro r2 hr2 hm2
        rcases List.mem_cons.mp hr2 with rfl | hr2
        · exact absurd hm2 h0
        · exact hlen r2 hr2 hm2

theorem longestMatchLoop_none (path : Str) (rs : List Str) :
    ∀ acc, longestMatchLoop path rs acc = none →
      acc = none ∧ ∀ r ∈ rs, matchesRule path r = false := by
  induction rs with
  | nil =>
    intro acc h
    simp only [longestMatchLoop] at h
    exact ⟨h, by simp⟩
  | cons r0 rs ih =>
    intro acc h
    simp only [longestMatchLoop] at h
    by_cases h0 : matchesRule path r0 = true
    · rw [if_pos h0] at h
      cases acc with
      | none =>
        simp only [] at h
        exact absurd (ih (some r0) h).1 (by simp)
      | some m =>
        simp only [] at h
        by_cases hlt : m.length < r0.length
        · rw [if_pos hlt] at h
          exact absurd (ih (some r0) h).1 (by simp)
        · rw [if_neg hlt] at h
          exact absurd (ih (some m) h).1 (by simp)
    · rw [if_neg h0] at h
      have hstep := ih acc h
      refine ⟨hstep.1, ?_⟩
      intro r hr
      rcases List.mem_cons.mp hr with rfl | hr
      · simpa using h0
      · exact hstep.2 r hr

end CustomRobotsParser

/-- C7: for every parseable URL, `isAllowed` computes `path = pathname +
search`; any matching wildcard-agent Allow rule allows immediately;
otherwise the result is disallowed exactly when some Disallow rule matches
(in particular the literal rule `/` matches everything, and a rule ending in
`*` matches by prefix of the part before the `*`); with no match at all the
URL is allowed; and `getDisallowRule` returns a longest matching disallow
rule (and returns one whenever a disallow rule matches). -/
theorem CustomRobotsParser.isAllowed_getDisallowRule_spec
    (rules : CustomRobotsParser.RobotsRules) (url : String) (u : URLParts)
    (hp : parseURL url.data = some u) :
    ((∃ r ∈ rules.allow, CustomRobotsParser.matchesRule (CustomRobotsParser.robotsPath u) r = true) →
      CustomRobotsParser.isAllowed rules url = true) ∧
    ((¬ ∃ r ∈ rules.allow, CustomRobotsParser.matchesRule (CustomRobotsParser.robotsPath u) r = true) →
      (CustomRobotsParser.isAllowed rules url = false ↔
        ∃ r ∈ rules.disallow, CustomRobotsParser.matchesRule (CustomRobotsParser.robotsPath u) r = true)) ∧
    ((∀ r ∈ rules.allow ++ rules.disallow,
        CustomRobotsParser.matchesRule (CustomRobotsParser.robotsPath u) r = false) →
      CustomRobotsParser.isAllowed rules url = true) ∧
    (∀ path rule : Str,
      CustomRobotsParser.matchesRule path (rule ++ ['*']) = rule.isPrefixOf path) ∧
    (∀ path : Str, CustomRobotsParser.matchesRule path ['/'] = true) ∧
    (∀ r, CustomRobotsParser.getDisallowRule rules url = some r →
      r ∈ rules.disallow ∧
      CustomRobotsParser.matchesRule (CustomRobotsParser.robotsPath u) r = true ∧
      ∀ r2 ∈ rules.disallow,
        CustomRobotsParser.matchesRule (CustomRobotsParser.robotsPath u) r2 = true →
          r2.length ≤ r.length) ∧
    ((∃ r ∈ rules.disallow, CustomRobotsParser.matchesRule (CustomRobotsParser.robotsPath u) r = true) →
      ∃ r, CustomRobotsParser.getDisallowRule rules url = some r) := by
  have hia : CustomRobotsParser.isAllowed rules url =
      (if CustomRobotsParser.firstRuleMatch (CustomRobotsParser.robotsPath u) rules.allow then true
       else if CustomRobotsParser.firstRuleMatch (CustomRobotsParser.robotsPath u) rules.disallow then false
       else true) := by
    unfold CustomRobotsParser.isAllowed
    rw [hp]
  have hgd : CustomRobotsParser.getDisallowRule rules url =
      CustomRobotsParser.longestMatchLoop (CustomRobotsParser.robotsPath u) rules.disallow none := by
    unfold CustomRobotsParser.getDisallowRule
    rw [hp]
  refine ⟨?_, ?_, ?_, ?_, ?_, ?_, ?_⟩
  · intro hex
    rw [hia, if_pos ((CustomRobotsParser.firstRuleMatch_iff _ _).mpr hex)]
  · intro hnex
    have hfa : CustomRobotsParser.firstRuleMatch (CustomRobotsParser.robotsPath u) rules.allow = false := by
      rcases hb : CustomRobotsParser.firstRuleMatch (CustomRobotsParser.robotsPath u) rules.allow with _ | _
      · rfl
      · exact absurd ((CustomRobotsParser.firstRuleMatch_iff _ _).mp hb) hnex
    rw [hia, hfa]
    simp only [Bool.false_eq_true, if_false]
    constructor
    · intro hfd
      by_cases hd : CustomRobotsParser.firstRuleMatch (CustomRobotsParser.robotsPath u) rules.disallow = true
      · exact (CustomRobotsParser.firstRuleMatch_iff _ _).mp hd
      · simp only [Bool.not_eq_true] at hd
        rw [hd] at hfd
        simp at hfd
    · intro hex
      rw [if_pos ((CustomRobotsParser.firstRuleMatch_iff _ _).mpr hex)]
  · intro hall
    have hfa : CustomRobotsParser.firstRuleMatch (CustomRobotsParser.robotsPath u) rules.allow = false := by
      rcases hb : CustomRobotsParser.firstRuleMatch (CustomRobotsParser.robotsPath u) rules.allow with _ | _
      · rfl
      · obtain ⟨r, hr, hm⟩ := (CustomRobotsParser.firstRuleMatch_iff _ _).mp hb
        have := hall r (List.mem_append_left _ hr)
        rw [this] at hm
        exact absurd hm (by simp)
    have hfd : CustomRobotsParser.firstRuleMatch (CustomRobotsParser.robotsPath u) rules.disallow = false := by
      rcases hb : CustomRobotsParser.firstRuleMatch (CustomRobotsParser.robotsPath u) rules.disallow with _ | _
      · rfl
      · obtain ⟨r, hr, hm⟩ := (CustomRobotsParser.firstRuleMatch_iff _ _).mp hb
        have := hall r (List.mem_append_right _ hr)
        rw [this] at hm
        exact absurd hm (by simp)
    rw [hia, hfa, hfd]
    simp
  · intro path rule
    have hlast : (rule ++ ['*']).getLast? = some '*' := by
      rw [List.getLast?_concat]
    have hne : rule ++ ['*'] ≠ ['/'] := by
      intro he
      rw [he] at hlast
      simp at hlast
    unfold CustomRobotsParser.matchesRule
    rw [if_neg hne, if_pos hlast, List.dropLast_concat]
  · intro path
    unfold CustomRobotsParser.matchesRule
    rw [if_pos rfl]
  · intro r hr
    rw [hgd] at hr
    have := CustomRobotsParser.longestMatchLoop_sound _ rules.disallow none
      (by intro m hm; exact absurd hm (by simp)) r hr
    obtain ⟨hm, hmem, hlen, _⟩ := this
    refine ⟨?_, hm, hlen⟩
    rcases hmem with hmem | hmem
    · exact hmem
    · exact absurd hmem (by simp)
  · intro hex
    rw [hgd]
    cases hres : CustomRobotsParser.longestMatchLoop (CustomRobotsParser.robotsPath u) rules.disallow none with
    | none =>
      obtain ⟨r, hr, hm⟩ := hex
      have := (CustomRobotsParser.longestMatchLoop_none _ _ none hres).2 r hr
      rw [this] at hm
      exact absurd hm (by simp)
    | some r => exact ⟨r, rfl⟩

/-- Witness for C7 at a concrete ruleset and URL. -/
theorem CustomRobotsParser.isAllowed_spec_witness :
    CustomRobotsParser.isAllowed ⟨[("/pub".data)], [("/p".data)]⟩ "http://ex.com/pub/x" = true ∧
    CustomRobotsParser.getDisallowRule ⟨[], [("/p".data), ("/pub".data)]⟩ "http://ex.com/pub/x" =
      some ("/pub".data) := by
  constructor
  · have h := CustomRobotsParser.isAllowed_getDisallowRule_spec
      ⟨[("/pub".data)], [("/p".data)]⟩ "http://ex.com/pub/x"
      ⟨("http".data), ("ex.com".data), none, ("/pub/x".data), none, none⟩ (by decide)
    exact h.1 ⟨("/pub".data), by decide, by decide⟩
  · decide

/-- C10: robots queries never raise on malformed input — when the URL cannot
be parsed, `isAllowed` answers `true` and `getDisallowRule` answers `null`
(the catch branches of `customRobotsParser.js`). -/
theorem CustomRobotsParser.robots_total_on_unparseable
    (rules : CustomRobotsParser.RobotsRules) (url : String)
    (h : parseURL url.data = none) :
    CustomRobotsParser.isAllowed rules url = true ∧
    CustomRobotsParser.getDisallowRule rules url = none := by
  constructor
  · unfold CustomRobotsParser.isAllowed
    rw [h]
  · unfold CustomRobotsParser.getDisallowRule
    rw [h]

/-- Witness for C10 at a concrete malformed URL. -/
theorem CustomRobotsParser.robots_total_witness :
    CustomRobotsParser.isAllowed ⟨[], [("/".data)]⟩ "not a url" = true ∧
    CustomRobotsParser.getDisallowRule ⟨[], [("/".data)]⟩ "not a url" = none :=
  CustomRobotsParser.robots_total_on_unparseable ⟨[], [("/".data)]⟩ "not a url" (by decide)

/-! ### Incoming-link accounting (C1) -/

theorem bumpCounts_spec (targets : List Str) :
    ∀ (m : Str → Nat) (t : Str),
      bumpCounts m targets t = m t + (targets.filter (fun x => decide (t = x))).length := by
  induction targets with
  | nil => intro m t; simp [bumpCounts]
  | cons x xs ih =>
    intro m t
    have hstep : bumpCounts m (x :: xs) =
        bumpCounts (fun u => if u = x then m u + 1 else m u) xs := rfl
    rw [hstep, ih]
    simp only [List.filter_cons]
    by_cases h : t = x
    · subst h
      simp
      omega
    · simp [h]

theorem incomingCounts_spec (g : List (Str × List Str)) (t : Str) :
    incomingCounts g t =
      ((g.map (fun e => (e.2.filter (fun x => decide (t = x))).length)).sum) := by
  suffices h : ∀ m : Str → Nat,
      (g.foldl (fun m e => bumpCounts m e.2) m) t =
        m t + (g.map (fun e => (e.2.filter (fun x => decide (t = x))).length)).sum by
    have := h (fun _ => 0)
    simpa [incomingCounts] using this
  induction g with
  | nil => intro m; simp
  | cons e g ih =>
    intro m
    simp only [List.foldl_cons, List.map_cons, List.sum_cons]
    rw [ih, bumpCounts_spec]
    omega

theorem filter_eq_ite_of_nodup (t : Str) (l : List Str) (h : l.Nodup) :
    (l.filter (fun x => decide (t = x))).length = if t ∈ l then 1 else 0 := by
  induction l with
  | nil => simp
  | cons x xs ih =>
    obtain ⟨hx, hxs⟩ := List.nodup_cons.mp h
    simp only [List.filter_cons]
    by_cases he : t = x
    · subst he
      have h0 : (xs.filter (fun x => decide (t = x))).length = 0 := by
        rw [ih hxs, if_neg hx]
      simp [h0]
    · simp only [he, decide_False, Bool.false_eq_true, if_false]
      rw [ih hxs]
      by_cases hm : t ∈ xs
      · rw [if_pos hm, if_pos (List.mem_cons_of_mem _ hm)]
      · rw [if_neg hm, if_neg (by simp [he, hm])]

theorem count_distinct_sources (g : List (Str × List Str)) (t : Str)
    (htgts : ∀ e ∈ g, e.2.Nodup) :
    ((g.map (fun e => (e.2.filter (fun x => decide (t = x))).length)).sum) =
      (g.filter (fun e => decide (t ∈ e.2))).length := by
  induction g with
  | nil => simp
  | cons e g ih =>
    simp only [List.map_cons, List.sum_cons, List.filter_cons]
    have hnd := htgts e (by simp)
    have ih2 := ih (fun e2 he2 => htgts e2 (List.mem_cons_of_mem _ he2))
    rw [filter_eq_ite_of_nodup t e.2 hnd, ih2]
    by_cases hm : t ∈ e.2
    · simp [hm]
      omega
    · simp [hm]

/-- C1: after the post-traversal incoming-count pass, every record's
`incoming_internal_link_count` equals the number of Link-Graph entries whose
target set contains the record's key — with the entry keys distinct
(JS `Map`) and each target set duplicate-free (JS `Set`), this is the number
of distinct sources with an edge to that key; records with
`resource_type ≠ PAGE` always get 0. -/
theorem buildIncomingLinkCounts_correct (g : List (Str × List Str))
    (pages : List (Str × PageData))
    (hkeys : (g.map Prod.fst).Nodup) (htgts : ∀ e ∈ g, e.2.Nodup) :
    ∀ kv ∈ buildIncomingLinkCounts g pages,
      (kv.2.resource_type = some ResourceType.PAGE →
        kv.2.incoming_internal_link_count =
          (g.filter (fun e => decide (kv.1 ∈ e.2))).length) ∧
      (kv.2.resource_type ≠ some ResourceType.PAGE →
        kv.2.incoming_internal_link_count = 0) := by
  intro kv hkv
  simp only [buildIncomingLinkCounts, List.mem_map] at hkv
  obtain ⟨kv0, hkv0, rfl⟩ := hkv
  by_cases hpage : kv0.2.isPage = true
  · rw [if_pos hpage]
    constructor
    · intro _
      show incomingCounts g kv0.1 = _
      rw [incomingCounts_spec, count_distinct_sources g _ htgts]
    · intro hne
      exfalso
      apply hne
      show kv0.2.resource_type = some ResourceType.PAGE
      unfold PageData.isPage at hpage
      simpa using hpage
  · rw [if_neg hpage]
    constructor
    · intro hpg
      exfalso
      apply hpage
      unfold PageData.isPage
      exact decide_eq_true hpg
    · intro _
      rfl

/-- Witness for C1 at a concrete graph and page store. -/
theorem buildIncomingLinkCounts_witness :
    ({ PageData.init ("c".data) ("c".data) with
        resource_type := some ResourceType.PAGE,
        incoming_internal_link_count := 2 } : PageData).incoming_internal_link_count =
      (([((("a".data) : Str), [(("c".data) : Str)]), ((("b".data) : Str), [(("c".data) : Str)])]).filter
        (fun e => decide ((("c".data) : Str) ∈ e.2))).length := by
  have h := buildIncomingLinkCounts_correct
    [((("a".data) : Str), [(("c".data) : Str)]), ((("b".data) : Str), [(("c".data) : Str)])]
    [((("c".data) : Str),
      { PageData.init ("c".data) ("c".data) with resource_type := some ResourceType.PAGE })]
    (by decide) (by decide)
    ((("c".data) : Str),
      { PageData.init ("c".data) ("c".data) with
          resource_type := some ResourceType.PAGE,
          incoming_internal_link_count := 2 })
    (by decide)
  exact h.1 (by decide)

/-! ### Redirect following (C2, C9) -/

theorem fetchWithRedirects_ceiling (net : Str → Option Response)
    (resolve : Str → Str → Option Str) (maxR : Nat) (url : Str) (pd : PageData)
    (count : Nat) (h : maxR < count) :
    fetchWithRedirects net resolve maxR url pd count =
      (none, { pd with fetch_error := some FetchError.max_redirects_exceeded }) := by
  unfold fetchWithRedirects
  have h0 : maxR + 1 - count = 0 := by omega
  rw [h0]
  rfl

theorem fetchWithRedirects_netfail (net : Str → Option Response)
    (resolve : Str → Str → Option Str) (maxR : Nat) (url : Str) (pd : PageData)
    (count : Nat) (hc : count ≤ maxR) (hnet : net url = none) :
    fetchWithRedirects net resolve maxR url pd count =
      (none, { pd with fetch_error := some FetchError.network_error }) := by
  unfold fetchWithRedirects
  have h1 : maxR + 1 - count = (maxR - count) + 1 := by omega
  rw [h1]
  simp only [fetchWithRedirectsAux, hnet]

theorem fetchWithRedirects_terminal (net : Str → Option Response)
    (resolve : Str → Str → Option Str) (maxR : Nat) (url : Str) (pd : PageData)
    (count : Nat) (resp : Response)
    (hc : count ≤ maxR) (hnet : net url = some resp)
    (h3 : ¬ (300 ≤ resp.status ∧ resp.status < 400)) :
    fetchWithRedirects net resolve maxR url pd count = (some (resp, url), pd) := by
  unfold fetchWithRedirects
  have h1 : maxR + 1 - count = (maxR - count) + 1 := by omega
  rw [h1]
  simp only [fetchWithRedirectsAux, hnet]
  rw [if_neg h3]

theorem fetchWithRedirects_follow (net : Str → Option Response)
    (resolve : Str → Str → Option Str) (maxR : Nat) (url : Str) (pd : PageData)
    (count : Nat) (resp : Response) (loc target : Str)
    (hc : count ≤ maxR)
    (hnet : net url = some resp)
    (h3 : 300 ≤ resp.status ∧ resp.status < 400)
    (hloc : headerGet resp.headers ("location".data) = some loc)
    (hres : resolve loc url = some target) :
    fetchWithRedirects net resolve maxR url pd count =
      fetchWithRedirects net resolve maxR target
        { pd with redirect_chain := pd.redirect_chain ++ [url] } (count + 1) := by
  unfold fetchWithRedirects
  have h1 : maxR + 1 - count = (maxR - count) + 1 := by omega
  have h2 : maxR + 1 - (count + 1) = maxR - count := by omega
  rw [h1, h2]
  simp only [fetchWithRedirectsAux, hnet]
  rw [if_pos h3]
  simp only [hloc, hres]

theorem fetchWithRedirectsAux_fields (net : Str → Option Response)
    (resolve : Str → Str → Option Str) :
    ∀ (gas : Nat) (url : Str) (pd : PageData) (count : Nat),
      (fetchWithRedirectsAux net resolve gas url pd count).2.url = pd.url ∧
      (fetchWithRedirectsAux net resolve gas url pd count).2.normalized_url = pd.normalized_url ∧
      (fetchWithRedirectsAux net resolve gas url pd count).2.resource_type = pd.resource_type ∧
      (fetchWithRedirectsAux net resolve gas url pd count).2.internal_outgoing_links =
        pd.internal_outgoing_links ∧
      (fetchWithRedirectsAux net resolve gas url pd count).2.blocked_by_robots =
        pd.blocked_by_robots := by
  intro gas
  induction gas with
  | zero => intro url pd count; exact ⟨rfl, rfl, rfl, rfl, rfl⟩
  | succ gas ih =>
    intro url pd count
    simp only [fetchWithRedirectsAux]
    cases hnet : net url with
    | none => exact ⟨rfl, rfl, rfl, rfl, rfl⟩
    | some resp =>
      simp only []
      by_cases h3 : 300 ≤ resp.status ∧ resp.status < 400
      · rw [if_pos h3]
        cases hloc : headerGet resp.headers ("location".data) with
        | none => exact ⟨rfl, rfl, rfl, rfl, rfl⟩
        | some loc =>
          simp only []
          cases hres : resolve loc url with
          | none => exact ⟨rfl, rfl, rfl, rfl, rfl⟩
          | some target =>
            simp only []
            exact ih target _ (count + 1)
      · rw [if_neg h3]
        exact ⟨rfl, rfl, rfl, rfl, rfl⟩

theorem fetchWithRedirects_fields (net : Str → Option Response)
    (resolve : Str → Str → Option Str) (maxR : Nat) (url : Str) (pd : PageData)
    (count : Nat) :
    (fetchWithRedirects net resolve maxR url pd count).2.url = pd.url ∧
    (fetchWithRedirects net resolve maxR url pd count).2.normalized_url = pd.normalized_url ∧
    (fetchWithRedirects net resolve maxR url pd count).2.resource_type = pd.resource_type ∧
    (fetchWithRedirects net resolve maxR url pd count).2.internal_outgoing_links =
      pd.internal_outgoing_links ∧
    (fetchWithRedirects net resolve maxR url pd count).2.blocked_by_robots =
      pd.blocked_by_robots :=
  fetchWithRedirectsAux_fields net resolve _ url pd count

/-- A fold step that preserves a predicate preserves it over the fold. -/
theorem foldl_preserves {α β : Type} (f : β → α → β) (P : β → Prop)
    (hf : ∀ b a, P b → P (f b a)) :
    ∀ (l : List α) (b : β), P b → P (l.foldl f b) := by
  intro l
  induction l with
  | nil => intro b hb; exact hb
  | cons a l ih =>
    intro b hb
    exact ih (f b a) (hf b a hb)

theorem processLink_fields (url : Str) (acc : PageData × CrawlState) (link : ParsedLink) :
    (processLink url acc link).1.redirect_chain = acc.1.redirect_chain ∧
    (processLink url acc link).1.final_url = acc.1.final_url ∧
    (processLink url acc link).1.url = acc.1.url ∧
    (processLink url acc link).1.normalized_url = acc.1.normalized_url ∧
    (processLink url acc link).1.resource_type = acc.1.resource_type ∧
    (processLink url acc link).1.fetch_error = acc.1.fetch_error ∧
    (processLink url acc link).2.pages = acc.2.pages ∧
    (processLink url acc link).2.visited = acc.2.visited ∧
    (processLink url acc link).2.fetchLog = acc.2.fetchLog ∧
    (processLink url acc link).2.pageCount = acc.2.pageCount := by
  obtain ⟨pd, st⟩ := acc
  unfold processLink
  by_cases hi : link.isInternal = true
  · rw [if_pos hi]
    by_cases hm : link.normalized ∈ st.visited ∨ link.normalized ∈ st.queue
    · rw [if_pos hm]
      exact ⟨rfl, rfl, rfl, rfl, rfl, rfl, rfl, rfl, rfl, rfl⟩
    · rw [if_neg hm]
      exact ⟨rfl, rfl, rfl, rfl, rfl, rfl, rfl, rfl, rfl, rfl⟩
  · rw [if_neg hi]
    exact ⟨rfl, rfl, rfl, rfl, rfl, rfl, rfl, rfl, rfl, rfl⟩

theorem processLinks_fields (url : Str) (links : List ParsedLink)
    (acc : PageData × CrawlState) :
    (processLinks url links acc).1.redirect_chain = acc.1.redirect_chain ∧
    (processLinks url links acc).1.final_url = acc.1.final_url ∧
    (processLinks url links acc).1.url = acc.1.url ∧
    (processLinks url links acc).1.normalized_url = acc.1.normalized_url ∧
    (processLinks url links acc).1.resource_type = acc.1.resource_type ∧
    (processLinks url links acc).1.fetch_error = acc.1.fetch_error ∧
    (processLinks url links acc).2.pages = acc.2.pages ∧
    (processLinks url links acc).2.visited = acc.2.visited ∧
    (processLinks url links acc).2.fetchLog = acc.2.fetchLog ∧
    (processLinks url links acc).2.pageCount = acc.2.pageCount := by
  unfold processLinks
  refine foldl_preserves (processLink url)
    (fun b =>
      b.1.redirect_chain = acc.1.redirect_chain ∧
      b.1.final_url = acc.1.final_url ∧
      b.1.url = acc.1.url ∧
      b.1.normalized_url = acc.1.normalized_url ∧
      b.1.resource_type = acc.1.resource_type ∧
      b.1.fetch_error = acc.1.fetch_error ∧
      b.2.pages = acc.2.pages ∧
      b.2.visited = acc.2.visited ∧
      b.2.fetchLog = acc.2.fetchLog ∧
      b.2.pageCount = acc.2.pageCount)
    ?_ links acc ⟨rfl, rfl, rfl, rfl, rfl, rfl, rfl, rfl, rfl, rfl⟩
  intro b a hb
  have h := processLink_fields url b a
  exact ⟨h.1.trans hb.1, h.2.1.trans hb.2.1, h.2.2.1.trans hb.2.2.1,
    h.2.2.2.1.trans hb.2.2.2.1, h.2.2.2.2.1.trans hb.2.2.2.2.1,
    h.2.2.2.2.2.1.trans hb.2.2.2.2.2.1, h.2.2.2.2.2.2.1.trans hb.2.2.2.2.2.2.1,
    h.2.2.2.2.2.2.2.1.trans hb.2.2.2.2.2.2.2.1,
    h.2.2.2.2.2.2.2.2.1.trans hb.2.2.2.2.2.2.2.2.1,
    h.2.2.2.2.2.2.2.2.2.trans hb.2.2.2.2.2.2.2.2.2⟩

theorem scanChain_detects (chain : List Str) :
    ∀ seen, ¬ (seen ++ chain).Nodup → seen.Nodup → (scanChain seen chain).1 = true := by
  induction chain with
  | nil =>
    intro seen h hs
    rw [List.append_nil] at h
    exact absurd hs h
  | cons u rest ih =>
    intro seen h hs
    simp only [scanChain]
    by_cases hu : u ∈ seen
    · rw [if_pos hu]
    · rw [if_neg hu]
      apply ih (seen ++ [u])
      · rw [List.append_cons] at h
        exact h
      · rw [List.nodup_append]
        refine ⟨hs, by simp, ?_⟩
        intro a ha hb
        rw [List.mem_singleton] at hb
        subst hb
        exact hu ha

/-- C2: during redirect following no loop detection occurs — a 3xx response
with a resolvable `Location` is followed even when the target is already in
the accumulated `redirect_chain`; the attempt is aborted (with
`max_redirects_exceeded`) exactly when the counter exceeds the fixed
maximum; and repeated chain entries are detected only later, by
`IssueDetector.detectRedirectLoops` inspecting the completed chain. -/
theorem fetchWithRedirects_no_loop_detection
    (net : Str → Option Response) (resolve : Str → Str → Option Str)
    (maxR : Nat) (url : Str) (pd : PageData) (count : Nat)
    (resp : Response) (loc target : Str)
    (hc : count ≤ maxR)
    (hnet : net url = some resp)
    (h3 : 300 ≤ resp.status ∧ resp.status < 400)
    (hloc : headerGet resp.headers ("location".data) = some loc)
    (hres : resolve loc url = some target)
    (hmem : target ∈ pd.redirect_chain) :
    fetchWithRedirects net resolve maxR url pd count =
      fetchWithRedirects net resolve maxR target
        { pd with redirect_chain := pd.redirect_chain ++ [url] } (count + 1) ∧
    (∀ (url2 : Str) (pd2 : PageData) (count2 : Nat), maxR < count2 →
      fetchWithRedirects net resolve maxR url2 pd2 count2 =
        (none, { pd2 with fetch_error := some FetchError.max_redirects_exceeded })) ∧
    (∀ (pages : List PageData) (p : PageData), p ∈ pages → ¬ p.redirect_chain.Nodup →
      Issue.mk IssueType.REDIRECT_LOOP p.url ∈ IssueDetector.detectRedirectLoops pages) := by
  refine ⟨fetchWithRedirects_follow net resolve maxR url pd count resp loc target
      hc hnet h3 hloc hres, ?_, ?_⟩
  · intro url2 pd2 count2 h2
    exact fetchWithRedirects_ceiling net resolve maxR url2 pd2 count2 h2
  · intro pages p hp hnd
    have hchain : p.redirect_chain ≠ [] := by
      intro he
      rw [he] at hnd
      exact hnd List.nodup_nil
    have hflag : redirectLoopFlag p = true := by
      unfold redirectLoopFlag
      rw [if_neg (by simpa [List.isEmpty_eq_false] using hchain)]
      have hscan : (scanChain [] p.redirect_chain).1 = true :=
        scanChain_detects p.redirect_chain [] (by simpa using hnd) List.nodup_nil
      simp only [hscan, Bool.true_or]
    unfold IssueDetector.detectRedirectLoops
    rw [List.mem_filterMap]
    exact ⟨p, hp, by simp [hflag]⟩

/-- Witness for C2: a network whose redirect target is already in the chain
is still followed, and the detector flags the repeated chain afterwards. -/
theorem fetchWithRedirects_no_loop_witness :
    Issue.mk IssueType.REDIRECT_LOOP ("p".data) ∈
      IssueDetector.detectRedirectLoops
        [{ PageData.init ("p".data) ("p".data) with
            redirect_chain := [("a".data), ("b".data), ("a".data)] }] := by
  have h := fetchWithRedirects_no_loop_detection
    (fun _ => some ⟨301, [(("location".data), ("b".data))], none⟩)
    (fun l _ => some l) 5 ("a".data)
    { PageData.init ("a".data) ("a".data) with redirect_chain := [("b".data)] } 0
    ⟨301, [(("location".data), ("b".data))], none⟩ ("b".data) ("b".data)
    (by omega) rfl (by decide) (by decide) rfl (by decide)
  exact h.2.2
    [{ PageData.init ("p".data) ("p".data) with
        redirect_chain := [("a".data), ("b".data), ("a".data)] }]
    { PageData.init ("p".data) ("p".data) with
        redirect_chain := [("a".data), ("b".data), ("a".data)] }
    (by simp) (by decide)

/-- C9: for a fetch that redirects A→B→C where C answers 200, the record
ends with `redirect_chain == [A, B]` (each pre-redirect URL appended in
order) and `final_url == C` — the URL of the last request, which the
transport reports back since it does not auto-follow redirects. -/
theorem redirect_chain_fidelity (env : CrawlEnv) (A B C : Str) (pd0 : PageData)
    (st : CrawlState) (respA respB respC : Response) (locA locB : Str)
    (hchain : pd0.redirect_chain = [])
    (hmax : 2 ≤ env.maxRedirects)
    (hA : env.net A = some respA) (h3A : 300 ≤ respA.status ∧ respA.status < 400)
    (hlocA : headerGet respA.headers ("location".data) = some locA)
    (hresA : env.resolve locA A = some B)
    (hB : env.net B = some respB) (h3B : 300 ≤ respB.status ∧ respB.status < 400)
    (hlocB : headerGet respB.headers ("location".data) = some locB)
    (hresB : env.resolve locB B = some C)
    (hC : env.net C = some respC) (hstatC : respC.status = 200) :
    (fetchPage env A pd0 st).1.redirect_chain = [A, B] ∧
    (fetchPage env A pd0 st).1.final_url = some C := by
  have hnot3 : ¬ (300 ≤ respC.status ∧ respC.status < 400) := by
    intro hcon
    rw [hstatC] at hcon
    omega
  have hfwr : fetchWithRedirects env.net env.resolve env.maxRedirects A pd0 0 =
      (some (respC, C),
        { pd0 with redirect_chain := (pd0.redirect_chain ++ [A]) ++ [B] }) := by
    rw [fetchWithRedirects_follow env.net env.resolve env.maxRedirects A pd0 0 respA locA B
      (by omega) hA h3A hlocA hresA]
    rw [fetchWithRedirects_follow env.net env.resolve env.maxRedirects B _ 1 respB locB C
      (by omega) hB h3B hlocB hresB]
    rw [fetchWithRedirects_terminal env.net env.resolve env.maxRedirects C _ 2 respC
      (by omega) hC hnot3]
  have hAB : (pd0.redirect_chain ++ [A]) ++ [B] = [A, B] := by
    rw [hchain]
    rfl
  unfold fetchPage
  rw [hfwr]
  simp only []
  by_cases hct : (("text/html".data).isPrefixOf
      (toLowerStr ((headerGet respC.headers ("content-type".data)).getD []))) = true
  · rw [if_pos hct]
    cases hbody : respC.body with
    | none =>
      simp only []
      exact ⟨hAB, trivial⟩
    | some html =>
      simp only []
      have hpl := processLinks_fields A (env.parse html C).links
        ({ pd0 with
            redirect_chain := (pd0.redirect_chain ++ [A]) ++ [B],
            http_status := some respC.status,
            final_url := some C,
            headers := respC.headers,
            x_robots_tag := xRobotsOf respC.headers pd0.x_robots_tag,
            resource_type := some ResourceType.PAGE,
            title := (env.parse html C).title,
            h1s := (env.parse html C).h1s,
            meta_robots := (env.parse html C).metaRobots,
            meta_description := (env.parse html C).metaDescription }, st)
      refine ⟨hpl.1.trans ?_, hpl.2.1.trans ?_⟩
      · exact hAB
      · rfl
  · rw [if_neg hct]
    exact ⟨hAB, rfl⟩

/-- Witness for C9 on a concrete three-hop network. -/
theorem redirect_chain_fidelity_witness :
    (fetchPage
      { net := fun u =>
          if u = ("a".data) then some ⟨301, [(("location".data), ("b".data))], none⟩
          else if u = ("b".data) then some ⟨302, [(("location".data), ("c".data))], none⟩
          else some ⟨200, [], some []⟩,
        resolve := fun l _ => some l,
        parse := fun _ _ => ⟨none, [], none, none, []⟩,
        robotsAllowed := fun _ => true,
        robotsRule := fun _ => none,
        maxRedirects := 5,
        maxPages := 100 }
      ("a".data) (PageData.init ("a".data) ("a".data)) (initState ("a".data))).1.redirect_chain =
        [("a".data), ("b".data)] ∧
    (fetchPage
      { net := fun u =>
          if u = ("a".data) then some ⟨301, [(("location".data), ("b".data))], none⟩
          else if u = ("b".data) then some ⟨302, [(("location".data), ("c".data))], none⟩
          else some ⟨200, [], some []⟩,
        resolve := fun l _ => some l,
        parse := fun _ _ => ⟨none, [], none, none, []⟩,
        robotsAllowed := fun _ => true,
        robotsRule := fun _ => none,
        maxRedirects := 5,
        maxPages := 100 }
      ("a".data) (PageData.init ("a".data) ("a".data)) (initState ("a".data))).1.final_url =
        some ("c".data) :=
  redirect_chain_fidelity _ ("a".data) ("b".data) ("c".data) _ _
    ⟨301, [(("location".data), ("b".data))], none⟩
    ⟨302, [(("location".data), ("c".data))], none⟩
    ⟨200, [], some []⟩ ("b".data) ("c".data)
    rfl (by decide) (by decide) (by decide) (by decide) rfl
    (by decide) (by decide) (by decide) rfl (by decide) rfl

/-! ### `fetchPage` facts and the traversal invariant (C3, C4, C5) -/

theorem fetchPage_fields (env : CrawlEnv) (url : Str) (pd : PageData) (st : CrawlState) :
    (fetchPage env url pd st).1.url = pd.url ∧
    (fetchPage env url pd st).1.normalized_url = pd.normalized_url ∧
    (fetchPage env url pd st).2.pages = st.pages ∧
    (fetchPage env url pd st).2.visited = st.visited ∧
    (fetchPage env url pd st).2.fetchLog = st.fetchLog ∧
    (fetchPage env url pd st).2.pageCount = st.pageCount := by
  have hf := fetchWithRedirects_fields env.net env.resolve env.maxRedirects url pd 0
  unfold fetchPage
  cases hr : fetchWithRedirects env.net env.resolve env.maxRedirects url pd 0 with
  | mk ores pd2 =>
    rw [hr] at hf
    cases ores with
    | none =>
      simp only []
      refine ⟨hf.1, hf.2.1, ?_, ?_, ?_, ?_⟩ <;> first | trivial | rfl
    | some rp =>
      obtain ⟨resp, respUrl⟩ := rp
      simp only []
      by_cases hct : (("text/html".data).isPrefixOf
          (toLowerStr ((headerGet resp.headers ("content-type".data)).getD []))) = true
      · rw [if_pos hct]
        cases hbody : resp.body with
        | none => refine ⟨hf.1, hf.2.1, ?_, ?_, ?_, ?_⟩ <;> first | trivial | rfl
        | some html =>
          simp only []
          have hpl := processLinks_fields url (env.parse html respUrl).links
            ({ pd2 with
                http_status := some resp.status,
                final_url := some respUrl,
                headers := resp.headers,
                x_robots_tag := xRobotsOf resp.headers pd2.x_robots_tag,
                resource_type := some ResourceType.PAGE,
                title := (env.parse html respUrl).title,
                h1s := (env.parse html respUrl).h1s,
                meta_robots := (env.parse html respUrl).metaRobots,
                meta_description := (env.parse html respUrl).metaDescription }, st)
          refine ⟨hpl.2.2.1.trans hf.1, hpl.2.2.2.1.trans hf.2.1, hpl.2.2.2.2.2.2.1,
            hpl.2.2.2.2.2.2.2.1, hpl.2.2.2.2.2.2.2.2.1, hpl.2.2.2.2.2.2.2.2.2⟩
      · rw [if_neg hct]
        refine ⟨hf.1, hf.2.1, ?_, ?_, ?_, ?_⟩ <;> first | trivial | rfl

theorem fetchPage_failure (env : CrawlEnv) (url : Str) (pd : PageData) (st : CrawlState)
    (h : (fetchWithRedirects env.net env.resolve env.maxRedirects url pd 0).1 = none) :
    (fetchPage env url pd st).1.resource_type = some ResourceType.PAGE ∧
    (fetchPage env url pd st).1.fetch_error ≠ none ∧
    (fetchPage env url pd st).2 = st ∧
    (fetchPage env url pd st).1.internal_outgoing_links = pd.internal_outgoing_links ∧
    (fetchPage env url pd st).1.isPage = true := by
  have hf := fetchWithRedirects_fields env.net env.resolve env.maxRedirects url pd 0
  unfold fetchPage
  cases hr : fetchWithRedirects env.net env.resolve env.maxRedirects url pd 0 with
  | mk ores pd2 =>
    rw [hr] at hf h
    simp only [] at h
    subst h
    simp only []
    refine ⟨?_, ?_, ?_, hf.2.2.2.1, ?_⟩
    · first | trivial | rfl
    · cases he : pd2.fetch_error with
      | none => simp [he]
      | some e => simp [he]
    · first | trivial | rfl
    · first | trivial | rfl

theorem fetchPage_exception (env : CrawlEnv) (url : Str) (pd : PageData) (st : CrawlState)
    (resp : Response) (respUrl : Str) (pd2 : PageData)
    (h : fetchWithRedirects env.net env.resolve env.maxRedirects url pd 0 =
      (some (resp, respUrl), pd2))
    (hct : (("text/html".data).isPrefixOf
      (toLowerStr ((headerGet resp.headers ("content-type".data)).getD []))) = true)
    (hbody : resp.body = none) :
    (fetchPage env url pd st).1.resource_type = some ResourceType.PAGE ∧
    (fetchPage env url pd st).1.fetch_error = some FetchError.exception_during_fetch ∧
    (fetchPage env url pd st).2 = st ∧
    (fetchPage env url pd st).1.internal_outgoing_links = pd.internal_outgoing_links ∧
    (fetchPage env url pd st).1.isPage = true := by
  have hf := fetchWithRedirects_fields env.net env.resolve env.maxRedirects url pd 0
  unfold fetchPage
  rw [h] at hf ⊢
  simp only []
  rw [if_pos hct, hbody]
  simp only []
  refine ⟨?_, ?_, ?_, hf.2.2.2.1, ?_⟩ <;> first | trivial | rfl

theorem nodup_concat {x : Str} {l : List Str} (h : l.Nodup) (hx : x ∉ l) :
    (l ++ [x]).Nodup := by
  rw [List.nodup_append]
  refine ⟨h, by simp, ?_⟩
  intro a ha hb
  rw [List.mem_singleton] at hb
  subst hb
  exact hx ha

theorem countPageEntries_append (l : List (Str × PageData)) (kv : Str × PageData) :
    countPageEntries (l ++ [kv]) =
      countPageEntries l + (if kv.2.isPage = true then 1 else 0) := by
  unfold countPageEntries
  rw [List.filter_append]
  simp only [List.filter_cons, List.filter_nil, List.length_append]
  by_cases h : kv.2.isPage = true
  · simp [h]
  · simp [h]

theorem crawlStep_inv (env : CrawlEnv) (st : CrawlState) (h : CrawlInv st) :
    CrawlInv (crawlStep env st) := by
  obtain ⟨q, v, pgs, g, pc, fl⟩ := st
  obtain ⟨hnd, hflnd, hsub, hflsub, hcount, hurl⟩ := h
  simp only [] at hnd hflnd hsub hflsub hcount hurl
  cases q with
  | nil => exact ⟨hnd, hflnd, hsub, hflsub, hcount, hurl⟩
  | cons url rest =>
    unfold crawlStep
    simp only []
    by_cases hv : url ∈ v
    · rw [if_pos hv]
      exact ⟨hnd, hflnd, hsub, hflsub, hcount, hurl⟩
    · rw [if_neg hv]
      have hnotkey : url ∉ pgs.map Prod.fst := fun hc => hv (hsub url hc)
      have hnotlog : url ∉ fl := fun hc => hv (hflsub url hc)
      by_cases hr : env.robotsAllowed url = false
      · rw [if_pos hr]
        refine ⟨?_, hflnd, ?_, ?_, ?_, ?_⟩
        · simp only [List.map_append, List.map_cons, List.map_nil]
          exact nodup_concat hnd hnotkey
        · intro k hk
          simp only [List.map_append, List.map_cons, List.map_nil, List.mem_append,
            List.mem_singleton] at hk
          rcases hk with hk | hk
          · exact List.mem_append_left _ (hsub k hk)
          · subst hk
            exact List.mem_append_right _ (by simp)
        · intro k hk
          exact List.mem_append_left _ (hflsub k hk)
        · rw [countPageEntries_append]
          simp [PageData.isPage, hcount]
        · intro kv hkv
          rcases List.mem_append.mp hkv with hkv | hkv
          · exact hurl kv hkv
          · rw [List.mem_singleton] at hkv
            subst hkv
            exact ⟨rfl, rfl⟩
      · rw [if_neg hr]
        have hff := fetchPage_fields env url (PageData.init url url)
          ⟨rest, v ++ [url], pgs, g, pc, fl ++ [url]⟩
        obtain ⟨hfu, hfn, hfp, hfv, hffl, hfpc⟩ := hff
        simp only [] at hfu hfn hfp hfv hffl hfpc
        have hcore : CrawlInv
            { queue := (fetchPage env url (PageData.init url url)
                ⟨rest, v ++ [url], pgs, g, pc, fl ++ [url]⟩).2.queue,
              visited := (fetchPage env url (PageData.init url url)
                ⟨rest, v ++ [url], pgs, g, pc, fl ++ [url]⟩).2.visited,
              pages := (fetchPage env url (PageData.init url url)
                ⟨rest, v ++ [url], pgs, g, pc, fl ++ [url]⟩).2.pages ++
                [(url, (fetchPage env url (PageData.init url url)
                  ⟨rest, v ++ [url], pgs, g, pc, fl ++ [url]⟩).1)],
              linkGraph := (fetchPage env url (PageData.init url url)
                ⟨rest, v ++ [url], pgs, g, pc, fl ++ [url]⟩).2.linkGraph,
              pageCount := (fetchPage env url (PageData.init url url)
                ⟨rest, v ++ [url], pgs, g, pc, fl ++ [url]⟩).2.pageCount +
                (if (fetchPage env url (PageData.init url url)
                  ⟨rest, v ++ [url], pgs, g, pc, fl ++ [url]⟩).1.isPage = true then 1 else 0),
              fetchLog := (fetchPage env url (PageData.init url url)
                ⟨rest, v ++ [url], pgs, g, pc, fl ++ [url]⟩).2.fetchLog } := by
          refine ⟨?_, ?_, ?_, ?_, ?_, ?_⟩
          · simp only [hfp, List.map_append, List.map_cons, List.map_nil]
            exact nodup_concat hnd hnotkey
          · simp only [hffl]
            exact nodup_concat hflnd hnotlog
          · intro k hk
            simp only [hfp, hfv, List.map_append, List.map_cons, List.map_nil,
              List.mem_append, List.mem_singleton] at hk ⊢
            rcases hk with hk | hk
            · exact Or.inl (hsub k hk)
            · exact Or.inr (by simp [hk])
          · intro k hk
            simp only [hfv, hffl, List.mem_append, List.mem_singleton] at hk ⊢
            rcases hk with hk | hk
            · exact Or.inl (hflsub k hk)
            · exact Or.inr (by simp [hk])
          · simp only [hfp, hfpc, countPageEntries_append]
            omega
          · intro kv hkv
            simp only [hfp] at hkv
            rcases List.mem_append.mp hkv with hkv | hkv
            · exact hurl kv hkv
            · rw [List.mem_singleton] at hkv
              subst hkv
              exact ⟨hfu, hfn⟩
        by_cases hpage : (fetchPage env url (PageData.init url url)
            ⟨rest, v ++ [url], pgs, g, pc, fl ++ [url]⟩).1.isPage = true
        · rw [if_pos hpage]
          simpa [hpage] using hcore
        · rw [if_neg hpage]
          simpa [hpage] using hcore

theorem crawlLoop_inv (env : CrawlEnv) :
    ∀ (fuel : Nat) (st : CrawlState), CrawlInv st → CrawlInv (crawlLoop env fuel st) := by
  intro fuel
  induction fuel with
  | zero => intro st h; exact h
  | succ fuel ih =>
    intro st h
    unfold crawlLoop
    split
    · exact ih _ (crawlStep_inv env st h)
    · exact h

theorem initState_inv (seed : Str) : CrawlInv (initState seed) := by
  refine ⟨by simp [initState], by simp [initState], ?_, ?_, by simp [initState, countPageEntries], ?_⟩
  · intro k hk
    simp [initState] at hk
  · intro k hk
    simp [initState] at hk
  · intro kv hkv
    simp [initState] at hkv

theorem crawlStep_pageCount_le (env : CrawlEnv) (st : CrawlState) :
    (crawlStep env st).pageCount ≤ st.pageCount + 1 := by
  obtain ⟨q, v, pgs, g, pc, fl⟩ := st
  cases q with
  | nil => exact Nat.le_succ pc
  | cons url rest =>
    unfold crawlStep
    simp only []
    by_cases hv : url ∈ v
    · rw [if_pos hv]
      exact Nat.le_succ pc
    · rw [if_neg hv]
      by_cases hr : env.robotsAllowed url = false
      · rw [if_pos hr]
      · rw [if_neg hr]
        have hfpc := (fetchPage_fields env url (PageData.init url url)
          ⟨rest, v ++ [url], pgs, g, pc, fl ++ [url]⟩).2.2.2.2.2
        simp only [] at hfpc
        by_cases hpage : (fetchPage env url (PageData.init url url)
            ⟨rest, v ++ [url], pgs, g, pc, fl ++ [url]⟩).1.isPage = true
        · rw [if_pos hpage]
          simp only []
          omega
        · rw [if_neg hpage]
          simp only []
          omega

theorem crawlLoop_budget (env : CrawlEnv) :
    ∀ (fuel : Nat) (st : CrawlState), st.pageCount ≤ env.maxPages →
      (crawlLoop env fuel st).pageCount ≤ env.maxPages := by
  intro fuel
  induction fuel with
  | zero => intro st h; exact h
  | succ fuel ih =>
    intro st h
    unfold crawlLoop
    split
    · rename_i hcond
      apply ih
      have hle := crawlStep_pageCount_le env st
      omega
    · exact h

theorem countPAGE_build (g : List (Str × List Str)) (pages : List (Str × PageData)) :
    countPAGE ((buildIncomingLinkCounts g pages).map (fun kv => kv.2)) =
      countPageEntries pages := by
  unfold countPAGE countPageEntries buildIncomingLinkCounts
  induction pages with
  | nil => rfl
  | cons kv l ih =>
    simp only [List.map_cons, List.filter_cons]
    by_cases h : kv.2.isPage = true
    · rw [if_pos h]
      rw [if_pos (show ({ kv.2 with
          incoming_internal_link_count := incomingCounts g kv.1 } : PageData).isPage = true from h)]
      rw [if_pos h]
      simp only [List.length_cons, ih]
    · rw [if_neg h]
      rw [if_neg (show ¬ (({ kv.2 with
          incoming_internal_link_count := 0 } : PageData).isPage = true) from h)]
      rw [if_neg h]
      exact ih

/-- C5: each distinct enqueued URL string produces at most one Page Record
(the page-store keys stay duplicate-free), a URL's fetch attempt happens at
most once (the fetch log stays duplicate-free), and a dequeued URL already
in `visited` is skipped with no state change beyond leaving the queue. -/
theorem visited_once (env : CrawlEnv) (seed : Str) (fuel : Nat) :
    ((crawlLoop env fuel (initState seed)).pages.map Prod.fst).Nodup ∧
    (crawlLoop env fuel (initState seed)).fetchLog.Nodup ∧
    (∀ (st : CrawlState) (url : Str) (rest : List Str),
      st.queue = url :: rest → url ∈ st.visited →
      crawlStep env st = { st with queue := rest }) := by
  have hinv := crawlLoop_inv env fuel (initState seed) (initState_inv seed)
  refine ⟨hinv.1, hinv.2.1, ?_⟩
  intro st url rest hq hv
  obtain ⟨q, v, pgs, g, pc, fl⟩ := st
  simp only [] at hq hv
  subst hq
  unfold crawlStep
  simp only []
  rw [if_pos hv]

/-- Witness for C5: a duplicate-free run, and the skip of a visited URL. -/
theorem visited_once_witness :
    ((crawlLoop
      { net := fun _ => some ⟨200, [], none⟩,
        resolve := fun l _ => some l,
        parse := fun _ _ => ⟨none, [], none, none, []⟩,
        robotsAllowed := fun _ => true,
        robotsRule := fun _ => none,
        maxRedirects := 5,
        maxPages := 100 } 4 (initState ("s".data))).pages.map Prod.fst).Nodup ∧
    crawlStep
      { net := fun _ => some ⟨200, [], none⟩,
        resolve := fun l _ => some l,
        parse := fun _ _ => ⟨none, [], none, none, []⟩,
        robotsAllowed := fun _ => true,
        robotsRule := fun _ => none,
        maxRedirects := 5,
        maxPages := 100 }
      ⟨[("s".data)], [("s".data)], [], [], 0, []⟩ =
      ⟨[], [("s".data)], [], [], 0, []⟩ := by
  have h := visited_once
    { net := fun _ => some ⟨200, [], none⟩,
      resolve := fun l _ => some l,
      parse := fun _ _ => ⟨none, [], none, none, []⟩,
      robotsAllowed := fun _ => true,
      robotsRule := fun _ => none,
      maxRedirects := 5,
      maxPages := 100 } ("s".data) 4
  exact ⟨h.1, h.2.2 ⟨[("s".data)], [("s".data)], [], [], 0, []⟩ ("s".data) [] rfl (by decide)⟩

/-- C3: every failed fetch attempt — network error or redirect-ceiling
overrun (the redirect engine returns no response), or an exception while
reading an HTML body — yields a record with `resource_type = PAGE` and a
non-null `fetch_error`; no further processing happens (the crawl state,
hence link graph and queue, is returned unchanged and no outgoing links are
recorded); the record still counts toward the page budget (`isPage`, and
the loop's budget counter counts exactly the `PAGE` records); and no URL is
ever fetched twice within a run (duplicate-free fetch log). -/
theorem fetch_failure_semantics (env : CrawlEnv) (url : Str) (pd : PageData)
    (st : CrawlState) (seed : Str) (fuel : Nat) :
    ((fetchWithRedirects env.net env.resolve env.maxRedirects url pd 0).1 = none →
      (fetchPage env url pd st).1.resource_type = some ResourceType.PAGE ∧
      (fetchPage env url pd st).1.fetch_error ≠ none ∧
      (fetchPage env url pd st).2 = st ∧
      (fetchPage env url pd st).1.internal_outgoing_links = pd.internal_outgoing_links ∧
      (fetchPage env url pd st).1.isPage = true) ∧
    (∀ (resp : Response) (respUrl : Str) (pd2 : PageData),
      fetchWithRedirects env.net env.resolve env.maxRedirects url pd 0 =
        (some (resp, respUrl), pd2) →
      ("text/html".data).isPrefixOf
        (toLowerStr ((headerGet resp.headers ("content-type".data)).getD [])) = true →
      resp.body = none →
      (fetchPage env url pd st).1.resource_type = some ResourceType.PAGE ∧
      (fetchPage env url pd st).1.fetch_error = some FetchError.exception_during_fetch ∧
      (fetchPage env url pd st).2 = st ∧
      (fetchPage env url pd st).1.isPage = true) ∧
    (crawlLoop env fuel (initState seed)).fetchLog.Nodup ∧
    (crawlLoop env fuel (initState seed)).pageCount =
      countPageEntries (crawlLoop env fuel (initState seed)).pages := by
  have hinv := crawlLoop_inv env fuel (initState seed) (initState_inv seed)
  refine ⟨?_, ?_, hinv.2.1, hinv.2.2.2.2.1⟩
  · intro h
    exact fetchPage_failure env url pd st h
  · intro resp respUrl pd2 h hct hbody
    have hx := fetchPage_exception env url pd st resp respUrl pd2 h hct hbody
    exact ⟨hx.1, hx.2.1, hx.2.2.1, hx.2.2.2.2⟩

/-- Witness for C3 on a network that always fails. -/
theorem fetch_failure_witness :
    (fetchPage
      { net := fun _ => none,
        resolve := fun l _ => some l,
        parse := fun _ _ => ⟨none, [], none, none, []⟩,
        robotsAllowed := fun _ => true,
        robotsRule := fun _ => none,
        maxRedirects := 5,
        maxPages := 100 }
      ("u".data) (PageData.init ("u".data) ("u".data))
      (initState ("s".data))).1.resource_type = some ResourceType.PAGE ∧
    (fetchPage
      { net := fun _ => none,
        resolve := fun l _ => some l,
        parse := fun _ _ => ⟨none, [], none, none, []⟩,
        robotsAllowed := fun _ => true,
        robotsRule := fun _ => none,
        maxRedirects := 5,
        maxPages := 100 }
      ("u".data) (PageData.init ("u".data) ("u".data))
      (initState ("s".data))).1.fetch_error ≠ none := by
  have h := fetch_failure_semantics
    { net := fun _ => none,
      resolve := fun l _ => some l,
      parse := fun _ _ => ⟨none, [], none, none, []⟩,
      robotsAllowed := fun _ => true,
      robotsRule := fun _ => none,
      maxRedirects := 5,
      maxPages := 100 }
    ("u".data) (PageData.init ("u".data) ("u".data)) (initState ("s".data)) ("s".data) 3
  have h1 := h.1 (by decide)
  exact ⟨h1.1, h1.2.1⟩

/-- C4 (amended): the page budget is respected throughout the crawl — after
any number of loop iterations the number of `PAGE` records equals the
budget counter (so `RESOURCE` records never count) and is at most
`maxPages`, and the crawler's own reported page list obeys the same bound.
The completed audit's final page list can exceed the bound, because Phase
3.5 merges sitemap-only `PAGE` records fetched outside the budget. -/
theorem budget_respected_during_crawl (env : CrawlEnv) (seed : Str) (fuel : Nat) :
    countPageEntries (crawlLoop env fuel (initState seed)).pages ≤ env.maxPages ∧
    (crawlLoop env fuel (initState seed)).pageCount =
      countPageEntries (crawlLoop env fuel (initState seed)).pages ∧
    countPAGE (Crawler.crawl env seed fuel).pages ≤ env.maxPages := by
  have hinv := crawlLoop_inv env fuel (initState seed) (initState_inv seed)
  have hb := crawlLoop_budget env fuel (initState seed) (by simp [initState])
  have hcnt := hinv.2.2.2.2.1
  refine ⟨by omega, hcnt, ?_⟩
  show countPAGE ((buildIncomingLinkCounts (crawlLoop env fuel (initState seed)).linkGraph
    (crawlLoop env fuel (initState seed)).pages).map (fun kv => kv.2)) ≤ env.maxPages
  rw [countPAGE_build]
  omega

/-- C4 counterexample: with page budget 1 the crawl itself produces exactly
one `PAGE` record, but the final reported page list after the auditor's
Phase 3.5 merge holds two `PAGE` records — sitemap-only pages are fetched
outside the budget. -/
theorem budget_exceeded_in_final_report :
    countPAGE (Crawler.crawl
      { net := fun _ => some ⟨200, [(("content-type".data), ("text/html".data))], some []⟩,
        resolve := fun l _ => some l,
        parse := fun _ _ => ⟨none, [], none, none, []⟩,
        robotsAllowed := fun _ => true,
        robotsRule := fun _ => none,
        maxRedirects := 5,
        maxPages := 1 } ("s".data) 3).pages = 1 ∧
    countPAGE (Auditor.phase35
      { net := fun _ => some ⟨200, [(("content-type".data), ("text/html".data))], some []⟩,
        resolve := fun l _ => some l,
        parse := fun _ _ => ⟨none, [], none, none, []⟩,
        robotsAllowed := fun _ => true,
        robotsRule := fun _ => none,
        maxRedirects := 5,
        maxPages := 1 }
      (Crawler.crawl
        { net := fun _ => some ⟨200, [(("content-type".data), ("text/html".data))], some []⟩,
          resolve := fun l _ => some l,
          parse := fun _ _ => ⟨none, [], none, none, []⟩,
          robotsAllowed := fun _ => true,
          robotsRule := fun _ => none,
          maxRedirects := 5,
          maxPages := 1 } ("s".data) 3).pages [("o".data)]) = 2 := by
  exact ⟨by decide, by decide⟩

/-! ### Sitemap orphans (C8) -/

theorem dedupKeepFirst_mem (l : List Str) :
    ∀ (acc : List Str) (x : Str),
      x ∈ l.foldl (fun acc u => if u ∈ acc then acc else acc ++ [u]) acc ↔
        x ∈ acc ∨ x ∈ l := by
  induction l with
  | nil =>
    intro acc x
    simp
  | cons u l ih =>
    intro acc x
    simp only [List.foldl_cons]
    by_cases hu : u ∈ acc
    · rw [if_pos hu, ih]
      constructor
      · rintro (h | h)
        · exact Or.inl h
        · exact Or.inr (List.mem_cons_of_mem _ h)
      · rintro (h | h)
        · exact Or.inl h
        · rcases List.mem_cons.mp h with rfl | h
          · exact Or.inl hu
          · exact Or.inr h
    · rw [if_neg hu, ih]
      constructor
      · rintro (h | h)
        · rcases List.mem_append.mp h with h | h
          · exact Or.inl h
          · rw [List.mem_singleton] at h
            exact Or.inr (by simp [h])
        · exact Or.inr (List.mem_cons_of_mem _ h)
      · rintro (h | h)
        · exact Or.inl (List.mem_append_left _ h)
        · rcases List.mem_cons.mp h with rfl | h
          · exact Or.inl (List.mem_append_right _ (by simp))
          · exact Or.inr h

theorem mem_dedupKeepFirst (l : List Str) (x : Str) :
    x ∈ dedupKeepFirst l ↔ x ∈ l := by
  unfold dedupKeepFirst
  rw [dedupKeepFirst_mem l [] x]
  simp

theorem dedupKeepFirst_nodup (l : List Str) : (dedupKeepFirst l).Nodup := by
  unfold dedupKeepFirst
  refine foldl_preserves (fun acc u => if u ∈ acc then acc else acc ++ [u])
    (fun acc => acc.Nodup) ?_ l [] List.nodup_nil
  intro acc u hacc
  simp only []
  by_cases hu : u ∈ acc
  · rw [if_pos hu]
    exact hacc
  · rw [if_neg hu]
    exact nodup_concat hacc hu

theorem orphanIssues_count_zero (crawled : List Str) (u : Str) :
    ∀ l : List Str, u ∉ l →
      ((l.filterMap (fun v => if v ∈ crawled then none
        else some (Issue.mk IssueType.SITEMAP_ORPHAN v))).filter
          (fun i => decide (i.url = u))).length = 0 := by
  intro l
  induction l with
  | nil => intro _; rfl
  | cons v l ih =>
    intro h
    have hvne : v ≠ u := by
      intro he
      exact h (by simp [he])
    have hul : u ∉ l := fun hc => h (List.mem_cons_of_mem _ hc)
    simp only [List.filterMap_cons]
    by_cases hv : v ∈ crawled
    · rw [if_pos hv]
      exact ih hul
    · rw [if_neg hv]
      simp only [List.filter_cons]
      rw [if_neg (by simp [hvne])]
      exact ih hul

theorem orphanIssues_count_one (crawled : List Str) (u : Str) (hu : u ∉ crawled) :
    ∀ l : List Str, l.Nodup → u ∈ l →
      ((l.filterMap (fun v => if v ∈ crawled then none
        else some (Issue.mk IssueType.SITEMAP_ORPHAN v))).filter
          (fun i => decide (i.url = u))).length = 1 := by
  intro l
  induction l with
  | nil =>
    intro _ h
    exact absurd h (by simp)
  | cons v l ih =>
    intro hnd hmem
    obtain ⟨hv1, hv2⟩ := List.nodup_cons.mp hnd
    simp only [List.filterMap_cons]
    rcases List.mem_cons.mp hmem with rfl | hmem2
    · rw [if_neg hu]
      simp only [List.filter_cons]
      rw [if_pos (by simp)]
      simp only [List.length_cons]
      rw [orphanIssues_count_zero crawled u l hv1]
    · have hvne : v ≠ u := by
        intro he
        rw [he] at hv1
        exact hv1 hmem2
      by_cases hv : v ∈ crawled
      · rw [if_pos hv]
        exact ih hv2 hmem2
      · rw [if_neg hv]
        simp only [List.filter_cons]
        rw [if_neg (by simp [hvne])]
        exact ih hv2 hmem2

theorem sitemapFetchPage_keys (env : CrawlEnv) (url : Str) (pd : PageData) :
    (SitemapFetcher.fetchPage env url pd).url = pd.url ∧
    (SitemapFetcher.fetchPage env url pd).normalized_url = pd.normalized_url := by
  have hf := fetchWithRedirects_fields env.net env.resolve env.maxRedirects url pd 0
  unfold SitemapFetcher.fetchPage
  cases hr : fetchWithRedirects env.net env.resolve env.maxRedirects url pd 0 with
  | mk ores pd2 =>
    rw [hr] at hf
    cases ores with
    | none =>
      simp only []
      exact ⟨hf.1, hf.2.1⟩
    | some rp =>
      obtain ⟨resp, respUrl⟩ := rp
      simp only []
      by_cases hct : (("text/html".data).isPrefixOf
          (toLowerStr ((headerGet resp.headers ("content-type".data)).getD []))) = true
      · rw [if_pos hct]
        cases hbody : resp.body with
        | none => exact ⟨hf.1, hf.2.1⟩
        | some html =>
          simp only []
          exact foldl_preserves
            (fun (acc2 : PageData) (link : ParsedLink) =>
              if link.isInternal = true then
                { acc2 with internal_outgoing_links :=
                    acc2.internal_outgoing_links ++ [link.normalized] }
              else
                { acc2 with external_outgoing_links :=
                    acc2.external_outgoing_links ++ [link.normalized] })
            (fun (b : PageData) => b.url = pd.url ∧ b.normalized_url = pd.normalized_url)
            (fun (b : PageData) (a : ParsedLink) hb => by
              simp only []
              by_cases hi : a.isInternal = true
              · rw [if_pos hi]
                exact hb
              · rw [if_neg hi]
                exact hb)
            (env.parse html respUrl).links _ ⟨hf.1, hf.2.1⟩
      · rw [if_neg hct]
        exact ⟨hf.1, hf.2.1⟩

theorem fetchOne_keys (env : CrawlEnv) (u : Str) :
    (SitemapFetcher.fetchOne env u).url = u ∧
    (SitemapFetcher.fetchOne env u).normalized_url = u := by
  unfold SitemapFetcher.fetchOne
  by_cases hr : env.robotsAllowed u = false
  · rw [if_pos hr]
    exact ⟨rfl, rfl⟩
  · rw [if_neg hr]
    exact sitemapFetchPage_keys env u (PageData.init u u)

/-- C8 (amended): the check's predicate holds as specified — run in
isolation, `detectSitemapOrphans` emits exactly one `SITEMAP_ORPHAN` Issue
per sitemap-set URL absent from the record store's key set — but the
completed audit emits none: Phase 3.5 fetches every sitemap-only URL and
merges a record keyed by it into the store before detection runs, so no
sitemap URL is ever absent. -/
theorem sitemap_orphan_amended (pages : List PageData) (smap : List Str) (u : Str)
    (env : CrawlEnv) (crawlPages : List PageData)
    (hmem : u ∈ smap)
    (habs : u ∉ pages.map (fun p => p.normalized_url))
    (hkeys : ∀ p ∈ crawlPages, p.normalized_url = p.url) :
    ((IssueDetector.detectSitemapOrphans pages smap).filter
      (fun i => decide (i.url = u))).length = 1 ∧
    IssueDetector.detectSitemapOrphans (Auditor.phase35 env crawlPages smap) smap = [] := by
  constructor
  · unfold IssueDetector.detectSitemapOrphans
    exact orphanIssues_count_one (pages.map (fun p => p.normalized_url)) u habs
      (dedupKeepFirst smap) (dedupKeepFirst_nodup smap)
      ((mem_dedupKeepFirst smap u).mpr hmem)
  · unfold IssueDetector.detectSitemapOrphans
    rw [List.filterMap_eq_nil_iff]
    intro v hv
    have hvs : v ∈ smap := (mem_dedupKeepFirst smap v).mp hv
    have hcov : v ∈ (Auditor.phase35 env crawlPages smap).map
        (fun p => p.normalized_url) := by
      unfold Auditor.phase35
      simp only []
      by_cases hsp : v ∈ crawlPages.map (fun p => p.url)
      · obtain ⟨p, hp, hpv⟩ := List.mem_map.mp hsp
        have hn : p.normalized_url = v := by rw [hkeys p hp, hpv]
        split
        · exact List.mem_map.mpr ⟨p, hp, hn⟩
        · rw [List.map_append]
          exact List.mem_append_left _ (List.mem_map.mpr ⟨p, hp, hn⟩)
      · have hso : v ∈ smap.filter (fun u => !(u ∈ crawlPages.map (fun p => p.url))) := by
          rw [List.mem_filter]
          refine ⟨hvs, ?_⟩
          simp [hsp]
        split
        · rename_i hempty
          rw [List.isEmpty_iff] at hempty
          rw [hempty] at hso
          exact absurd hso (by simp)
        · rw [List.map_append]
          apply List.mem_append_right
          rw [List.map_map]
          exact List.mem_map.mpr ⟨v, hso, (fetchOne_keys env v).2⟩
    rw [if_pos hcov]

/-- C8 counterexample: the sitemap lists `o`, which no crawled page links
to; the detector alone would emit exactly one `SITEMAP_ORPHAN` for it, but
the completed audit (crawl, Phase 3.5 merge, then detection) emits none. -/
theorem sitemap_orphan_pipeline_counterexample :
    ((Crawler.crawl
      { net := fun _ => some ⟨200, [(("content-type".data), ("text/html".data))], some []⟩,
        resolve := fun l _ => some l,
        parse := fun _ _ => ⟨none, [], none, none, []⟩,
        robotsAllowed := fun _ => true,
        robotsRule := fun _ => none,
        maxRedirects := 5,
        maxPages := 10 } ("s".data) 3).pages.all
      (fun p => !(decide (("o".data) ∈ p.internal_outgoing_links)))) = true ∧
    (IssueDetector.detectSitemapOrphans
      (Crawler.crawl
        { net := fun _ => some ⟨200, [(("content-type".data), ("text/html".data))], some []⟩,
          resolve := fun l _ => some l,
          parse := fun _ _ => ⟨none, [], none, none, []⟩,
          robotsAllowed := fun _ => true,
          robotsRule := fun _ => none,
          maxRedirects := 5,
          maxPages := 10 } ("s".data) 3).pages [("o".data)]).length = 1 ∧
    IssueDetector.detectSitemapOrphans
      (Auditor.phase35
        { net := fun _ => some ⟨200, [(("content-type".data), ("text/html".data))], some []⟩,
          resolve := fun l _ => some l,
          parse := fun _ _ => ⟨none, [], none, none, []⟩,
          robotsAllowed := fun _ => true,
          robotsRule := fun _ => none,
          maxRedirects := 5,
          maxPages := 10 }
        (Crawler.crawl
          { net := fun _ => some ⟨200, [(("content-type".data), ("text/html".data))], some []⟩,
            resolve := fun l _ => some l,
            parse := fun _ _ => ⟨none, [], none, none, []⟩,
            robotsAllowed := fun _ => true,
            robotsRule := fun _ => none,
            maxRedirects := 5,
            maxPages := 10 } ("s".data) 3).pages [("o".data)]) [("o".data)] = [] := by
  exact ⟨by decide, by decide, by decide⟩

/-- Witness for the amended C8 theorem at concrete inputs. -/
theorem sitemap_orphan_amended_witness :
    ((IssueDetector.detectSitemapOrphans
      [{ PageData.init ("s".data) ("s".data) with resource_type := some ResourceType.PAGE }]
      [("o".data)]).filter (fun i => decide (i.url = ("o".data)))).length = 1 ∧
    IssueDetector.detectSitemapOrphans
      (Auditor.phase35
        { net := fun _ => none,
          resolve := fun l _ => some l,
          parse := fun _ _ => ⟨none, [], none, none, []⟩,
          robotsAllowed := fun _ => true,
          robotsRule := fun _ => none,
          maxRedirects := 5,
          maxPages := 10 }
        [{ PageData.init ("s".data) ("s".data) with resource_type := some ResourceType.PAGE }]
        [("o".data)]) [("o".data)] = [] :=
  sitemap_orphan_amended
    [{ PageData.init ("s".data) ("s".data) with resource_type := some ResourceType.PAGE }]
    [("o".data)] ("o".data)
    { net := fun _ => none,
      resolve := fun l _ => some l,
      parse := fun _ _ => ⟨none, [], none, none, []⟩,
      robotsAllowed := fun _ => true,
      robotsRule := fun _ => none,
      maxRedirects := 5,
      maxPages := 10 }
    [{ PageData.init ("s".data) ("s".data) with resource_type := some ResourceType.PAGE }]
    (by decide) (by decide) (by decide)
